import Mathlib

/-!
Verification of the `newredis` connection pool (`lib/pool.js`) and the basic
hiredis wrapper (`lib/basic.js`).

The pool is embedded as an explicit state machine.  JavaScript runs the pool
single-threaded and cooperatively: every stretch of code between two
suspension points (`await`, promise resolution, event delivery) executes
atomically.  Each such atomic stretch of `pool.js` is one `Event` of the
machine below, and an execution is an arbitrary interleaving, i.e. a
`List Event` folded over the deterministic `step` function.

Naming follows the source: `queueHandler`, `getConnection`'s three branches,
`waitForRelease`, `emptyQueue`, `release`, `handleExecuteError`, `repair`.
A slot is a `PoolConnection` with the source's `broken`, `free` and `idx`
fields.  The extra field `connAlive` models the state of the underlying
`RedisConnection` (its source file `lib/conn.js` is not part of the core;
per the spec it owns one physical link that can deliver a one-shot
"link lost" signal once established).
-/

/-- Error values crossing the pool's interfaces.  `connectionError` is the
`ConnectionError` class from `lib/errors` (the only class `pool.js` tests
for, via `e.constructor === ConnectionError`).  `connectError`,
`commandError` and `poolClosed` are the other error kinds named by the
spec (§7); the pool code treats all of them uniformly as
"not `ConnectionError`". -/
inductive Err where
  | connectionError (msg : String)
  | connectError
  | commandError (msg : String)
  | poolClosed
deriving Repr, DecidableEq

/-- `e.constructor === ConnectionError` from `handleExecuteError`. -/
def isConnectionError : Err → Bool
  | .connectionError _ => true
  | _ => false

/-- One slot of the pool: a `PoolConnection` object.  Fields `broken`,
`free`, `idx` are the source's fields (constructed with
`{ broken: false, free: false }` and the creation index).  `connAlive`
models whether the underlying `RedisConnection`'s TCP link is established
(true only after a successful `initialize`/`repair`); the "end" event can
fire only on an established link. -/
structure Slot where
  broken : Bool
  free : Bool
  idx : Nat
  connAlive : Bool
deriving Repr, DecidableEq

/-- The continuation state of one caller of `getConnection` (one "task").
Each constructor is a suspension point of the source code:
* `initNew i` — suspended at `await conn.initialize()` inside
  `getNewConnection`, for the freshly pushed slot `i`;
* `repairing i` — suspended at `await conn.repair()` inside
  `getOldConnection`;
* `waiting` — suspended at `await this.waitForRelease()`, its `{res, rej}`
  entry is in the queue;
* `fulfilled i` — its queue entry was resolved with slot `i` by
  `queueHandler`, but its continuation has not run yet;
* `holding i` — `getConnection` returned slot `i` to it;
* `released` — it called `release()` on the slot it held;
* `failed e` — `getConnection` (or teardown) rejected with error `e`. -/
inductive TaskStatus where
  | initNew (i : Nat)
  | repairing (i : Nat)
  | waiting
  | fulfilled (i : Nat)
  | holding (i : Nat)
  | released
  | failed (e : Err)
deriving Repr, DecidableEq

/-- Observable history entries, recorded as the machine runs:
`enq t` — task `t`'s `{res, rej}` entry pushed by `waitForRelease`;
`fulfill t i` — `queueHandler` resolved task `t`'s entry with slot `i`;
`reject t` — `emptyQueue` rejected task `t`'s entry;
`handout t i` — slot `i` was handed to task `t` (by direct scan, by
fulfillment, or by a completed initialization/repair);
`rel t i` — holder `t` called `release()` on slot `i`;
`lost i` — the link of slot `i` broke (TCP "end" event). -/
inductive Ev where
  | enq (t : Nat)
  | fulfill (t : Nat) (i : Nat)
  | reject (t : Nat)
  | handout (t : Nat) (i : Nat)
  | rel (t : Nat) (i : Nat)
  | lost (i : Nat)
deriving Repr, DecidableEq

/-- The `RedisConnectionPool` state: `queue` holds the task ids of the
queued `{res, rej}` entries in arrival order, `connections` is the pool
array, `size` and `connectionLimit` are the source's counters, `tasks`
gives every task's continuation state (task ids are indices), and `log`
is the observable history. -/
structure PoolState where
  queue : List Nat
  connections : List Slot
  size : Nat
  connectionLimit : Nat
  tasks : List TaskStatus
  log : List Ev
deriving Repr, DecidableEq

/-- The pool right after `new RedisConnectionPool(config)`:
`{ queue: [], connections: [], size: 0 }` with the configured
`connectionLimit`. -/
def initPool (cap : Nat) : PoolState :=
  { queue := [], connections := [], size := 0, connectionLimit := cap
    tasks := [], log := [] }

/-- `RedisConnectionPool.queueHandler(idx)`, the "release" event handler:

```js
const conn = this.connections[idx]
if (conn.free === false && conn.broken === false) { return }
if (this.queue.length > 0) {
  conn.free = false
  this.queue.shift().res(conn)
}
```

Resolving the shifted entry moves its task to `fulfilled idx` and logs
the fulfillment as a hand-out.  Note the handler clears `free` but not
`broken`. -/
def queueHandler (s : PoolState) (i : Nat) : PoolState :=
  match s.connections[i]? with
  | none => s
  | some conn =>
    if conn.free = false ∧ conn.broken = false then s
    else
      match s.queue with
      | [] => s
      | t :: rest =>
        { s with
          connections := s.connections.set i { conn with free := false }
          queue := rest
          tasks := s.tasks.set t (.fulfilled i)
          log := s.log ++ [.fulfill t i, .handout t i] }

/-- `PoolConnection.handleExecuteError(e)` (state effect; the error is
always re-thrown by the caller):

```js
if (e.constructor === ConnectionError) {
  this.broken = true
  this.pool.emitter.emit("release", this.idx)
}
throw e
```

The emit is synchronous: `queueHandler` runs to completion before the
throw. -/
def handleExecuteError (s : PoolState) (i : Nat) (e : Err) : PoolState :=
  if isConnectionError e then
    match s.connections[i]? with
    | none => s
    | some c => queueHandler
        { s with connections := s.connections.set i { c with broken := true } } i
  else s

/-- One atomic stretch of pool code between suspension points.
* `startAcquire` — a new caller runs `getConnection` up to its first
  suspension (its task id is the next fresh id);
* `finishInit t r` — task `t`'s `await conn.initialize()` (new slot)
  completes, successfully (`none`) or with an error;
* `finishRepair t r` — task `t`'s `await conn.repair()` completes;
* `resumeWaiter t` — the continuation of task `t` after
  `await this.waitForRelease()` runs;
* `release t` — holder `t` calls `release()` (sets `free`, emits);
* `misuseRelease i` — `release()` is invoked on slot `i` through a stale
  reference (double release / release by a non-holder);
* `linkLost i` — the TCP "end" event fires on slot `i`'s established
  link (`handleServerBroken`);
* `emptyQueue` — teardown: every queued entry is rejected with
  `ConnectionError("No live TCP connection")`. -/
inductive Event where
  | startAcquire
  | finishInit (t : Nat) (r : Option Err)
  | finishRepair (t : Nat) (r : Option Err)
  | resumeWaiter (t : Nat)
  | release (t : Nat)
  | misuseRelease (i : Nat)
  | linkLost (i : Nat)
  | emptyQueue
deriving Repr, DecidableEq

/-- The rejection used by `emptyQueue`:
`new ConnectionError("No live TCP connection")`. -/
def teardownError : Err := .connectionError "No live TCP connection"

/-- The deterministic transition function.  Each branch is commented with
the stretch of `pool.js` it mirrors. -/
def step (s : PoolState) (e : Event) : PoolState :=
  match e with
  | .startAcquire =>
    -- getConnection: `const conn = this.connections.find(x => x.free || x.broken)`
    let t := s.tasks.length
    match s.connections.findIdx? (fun c => c.free || c.broken) with
    | some i =>
      -- getOldConnection repeats the same find (same synchronous segment,
      -- same result), then `conn.free = false`;
      -- if `conn.broken`: `conn.broken = false; await conn.repair()`.
      match s.connections[i]? with
      | none => s
      | some c =>
        if c.broken then
          { s with
            connections := s.connections.set i { c with free := false, broken := false }
            tasks := s.tasks ++ [.repairing i] }
        else
          { s with
            connections := s.connections.set i { c with free := false }
            tasks := s.tasks ++ [.holding i]
            log := s.log ++ [.handout t i] }
    | none =>
      if s.size < s.connectionLimit then
        -- `this.size += 1; return await this.getNewConnection()`:
        -- `connIdx = this.connections.length`, construct with
        -- `{ broken: false, free: false }`, push, `await conn.initialize()`.
        let i := s.connections.length
        { s with
          size := s.size + 1
          connections := s.connections ++ [⟨false, false, i, false⟩]
          tasks := s.tasks ++ [.initNew i] }
      else
        -- getOldConnection: find fails again, so
        -- `conn = await this.waitForRelease()`: push `{res, rej}`.
        { s with
          queue := s.queue ++ [t]
          tasks := s.tasks ++ [.waiting]
          log := s.log ++ [.enq t] }
  | .finishInit t r =>
    match s.tasks[t]? with
    | some (.initNew i) =>
      (match s.connections[i]? with
      | none => s
      | some c =>
        match r with
        | none =>
          -- initialize succeeded; getNewConnection returns the slot.
          { s with
            connections := s.connections.set i { c with connAlive := true }
            tasks := s.tasks.set t (.holding i)
            log := s.log ++ [.handout t i] }
        | some err =>
          -- `catch (e) { this.handleExecuteError(e) }` then the rejection
          -- propagates to the caller of getConnection.
          handleExecuteError
            { s with
              connections := s.connections.set i { c with connAlive := false }
              tasks := s.tasks.set t (.failed err) } i err)
    | _ => s
  | .finishRepair t r =>
    -- `repair()` just re-runs `initialize()` on the same slot object.
    match s.tasks[t]? with
    | some (.repairing i) =>
      (match s.connections[i]? with
      | none => s
      | some c =>
        match r with
        | none =>
          { s with
            connections := s.connections.set i { c with connAlive := true }
            tasks := s.tasks.set t (.holding i)
            log := s.log ++ [.handout t i] }
        | some err =>
          handleExecuteError
            { s with
              connections := s.connections.set i { c with connAlive := false }
              tasks := s.tasks.set t (.failed err) } i err)
    | _ => s
  | .resumeWaiter t =>
    -- getOldConnection after `conn = await this.waitForRelease()`:
    -- `conn.free = false; if (conn.broken) { conn.broken = false; await conn.repair() }`
    match s.tasks[t]? with
    | some (.fulfilled i) =>
      (match s.connections[i]? with
      | none => s
      | some c =>
        if c.broken then
          { s with
            connections := s.connections.set i { c with free := false, broken := false }
            tasks := s.tasks.set t (.repairing i) }
        else
          { s with
            connections := s.connections.set i { c with free := false }
            tasks := s.tasks.set t (.holding i) })
    | _ => s
  | .release t =>
    -- `release()`: `this.free = true; this.pool.emitter.emit("release", this.idx)`;
    -- the emit runs queueHandler synchronously.
    match s.tasks[t]? with
    | some (.holding i) =>
      (match s.connections[i]? with
      | none => s
      | some c =>
        queueHandler
          { s with
            connections := s.connections.set i { c with free := true }
            tasks := s.tasks.set t .released
            log := s.log ++ [.rel t i] } i)
    | _ => s
  | .misuseRelease i =>
    -- the same `release()` body, reached through a stale reference.
    match s.connections[i]? with
    | none => s
    | some c =>
      queueHandler
        { s with connections := s.connections.set i { c with free := true } } i
  | .linkLost i =>
    -- `handleServerBroken()`: `this.broken = true; emit("release", this.idx)`.
    -- The TCP "end" event only fires on an established link, at most once.
    match s.connections[i]? with
    | none => s
    | some c =>
      if c.connAlive then
        queueHandler
          { s with
            connections := s.connections.set i { c with broken := true, connAlive := false }
            log := s.log ++ [.lost i] } i
      else s
  | .emptyQueue =>
    -- `while (r = this.queue.shift()) { r.rej(new ConnectionError("No live TCP connection")) }`
    { s with
      queue := []
      tasks := s.queue.foldl (fun ts t => ts.set t (.failed teardownError)) s.tasks
      log := s.log ++ s.queue.map .reject }

/-- Run the pool machine over a whole interleaving. -/
def run (s : PoolState) (es : List Event) : PoolState :=
  es.foldl step s

/-! ## The basic connection wrapper (`lib/basic.js`) -/

/-- A raw hiredis connection as seen by `executeCb`: only its `destroyed`
flag is consulted. -/
structure HiConn where
  destroyed : Bool
deriving Repr, DecidableEq

/-- The next event the socket delivers for a pending command: a `reply`
or an `error`. -/
inductive SockEvent where
  | reply (r : String)
  | err (msg : String)
deriving Repr, DecidableEq

/-- What one call of `executeCb(conn, commandArray, callback)` does:
the list of callback invocations it causes (in order) and whether the
command was written to the socket.

```js
if (conn.destroyed)
  callback(new Error("Socket Destroyed"));
conn.write.apply(conn, commandArray);
conn.once("reply", f1);
conn.once("error", f2);
```

The destroyed guard does not return, so the write and the listener
registration happen unconditionally, and the registered listener invokes
the callback a second time when the socket's next event arrives. -/
def executeCb (conn : HiConn) (next : SockEvent) :
    List (Except String String) × Bool :=
  ((if conn.destroyed then [Except.error "Socket Destroyed"] else []) ++
    [match next with
     | .reply r => Except.ok r
     | .err m => Except.error m], true)

/-- The Promise wrapper `execute(conn, commandArray)`: a promise settles
with the FIRST callback invocation; later invocations are ignored. -/
def executeBasic (conn : HiConn) (next : SockEvent) : Option (Except String String) :=
  (executeCb conn next).1.head?

/-! ## `PoolConnection.execute` (per-command error discipline) -/

/-- `PoolConnection.execute(command)` given the outcome of the underlying
`this.conn.execute(command)`:

```js
try { return await this.conn.execute(command) }
catch (e) { this.handleExecuteError(e) }
```

On success the reply is returned and no state changes; on failure
`handleExecuteError` runs (its state effect on the pool) and the same
error is re-thrown. -/
def executePool (s : PoolState) (i : Nat) (outcome : Except Err String) :
    PoolState × Except Err String :=
  match outcome with
  | .ok r => (s, .ok r)
  | .error e => (handleExecuteError s i e, .error e)

/-! ## Derived observations on the history -/

/-- Extract the task of an enqueue entry. -/
def enqOf : Ev → Option Nat
  | .enq t => some t
  | _ => none

/-- Extract the task of a queue-service entry (fulfillment or rejection);
these are exactly the events that `shift` an entry off the queue. -/
def svcOf : Ev → Option Nat
  | .fulfill t _ => some t
  | .reject t => some t
  | _ => none

/-- Extract the task of a fulfillment entry. -/
def fulOf : Ev → Option Nat
  | .fulfill t _ => some t
  | _ => none

/-- Task ids in the order their wait-queue entries were created. -/
def enqueueOrder (log : List Ev) : List Nat := log.filterMap enqOf

/-- Task ids in the order their wait-queue entries were shifted off the
queue (fulfilled or rejected). -/
def serviceOrder (log : List Ev) : List Nat := log.filterMap svcOf

/-- Task ids in the order their wait-queue entries were fulfilled. -/
def fulfillOrder (log : List Ev) : List Nat := log.filterMap fulOf

/-- Claim C1 as stated: whenever the same slot is handed to two different
callers, the first caller released it, or its connection broke, strictly
in between. -/
def exclusiveHandouts (log : List Ev) : Prop :=
  ∀ p q t1 t2 i : Nat, p < q →
    log[p]? = some (Ev.handout t1 i) → log[q]? = some (Ev.handout t2 i) → t1 ≠ t2 →
    ∃ r : Nat, p < r ∧ r < q ∧
      (log[r]? = some (Ev.rel t1 i) ∨ log[r]? = some (Ev.lost i))

/-- Whether a task's continuation state refers to slot `i` (it was assigned
slot `i` and has neither released it nor failed). -/
def TaskStatus.refs : TaskStatus → Nat → Bool
  | .initNew j, i => j == i
  | .repairing j, i => j == i
  | .fulfilled j, i => j == i
  | .holding j, i => j == i
  | _, _ => false

/-- `refL ts t i`: task `t` (an index into `ts`) refers to slot `i`. -/
def refL (ts : List TaskStatus) (t i : Nat) : Bool :=
  (ts[t]?.map (fun st => st.refs i)).getD false

/-- Task `t` of pool state `s` refers to slot `i`. -/
def refAt (s : PoolState) (t i : Nat) : Bool := refL s.tasks t i

/-- Task `t` holds slot `i`: its acquire was answered with slot `i`
(fulfilled or returned) and it has not released it. -/
def holdsSlot (s : PoolState) (t i : Nat) : Bool :=
  match s.tasks[t]? with
  | some (.fulfilled j) => j == i
  | some (.holding j) => j == i
  | _ => false

/-- Events allowed in a break-free, well-behaved interleaving: no link is
lost, no command or initialization fails at the connection level (so no
slot ever becomes `Broken`), and `release()` is only invoked by the
current holder. -/
def breakFree : Event → Bool
  | .linkLost _ => false
  | .misuseRelease _ => false
  | .finishInit _ (some e) => !isConnectionError e
  | .finishRepair _ (some e) => !isConnectionError e
  | _ => true

/-- Inductive invariant for break-free interleavings: no slot is broken,
queued tasks are waiting and distinct, every slot reference is in range,
a `free` slot is referenced by no task, and no slot is referenced by two
tasks. -/
structure Iex (s : PoolState) : Prop where
  noBroken : ∀ c ∈ s.connections, c.broken = false
  qWaiting : ∀ t ∈ s.queue, s.tasks[t]? = some .waiting
  qNodup : s.queue.Nodup
  refBound : ∀ t i, refAt s t i = true → i < s.connections.length
  freeClean : ∀ i c, s.connections[i]? = some c → c.free = true → ∀ t, refAt s t i = false
  uniqRef : ∀ t1 t2 i, refAt s t1 i = true → refAt s t2 i = true → t1 = t2

/-- Inductive invariant tying the history to the wait queue: the serviced
entries followed by the still-queued entries are exactly the created
entries in creation order, every created entry's task id is a real task,
and no task creates two entries. -/
structure IQ (s : PoolState) : Prop where
  svcQueue : serviceOrder s.log ++ s.queue = enqueueOrder s.log
  enqBound : ∀ t ∈ enqueueOrder s.log, t < s.tasks.length
  enqNodup : (enqueueOrder s.log).Nodup

/-- Inductive invariant for pool growth: the slot array's length equals
the `size` counter, never exceeds `connectionLimit`, and every slot's
`idx` field equals its position. -/
def sizeInv (s : PoolState) : Prop :=
  s.connections.length = s.size ∧ s.size ≤ s.connectionLimit ∧
  ∀ (k : Nat) (c : Slot), s.connections[k]? = some c → c.idx = k

/-- Slot `i` is leaked: it sits in the pool with `free = false`,
`broken = false` and no established link, and no task refers to it.
The free-or-broken scan skips it and `queueHandler` returns without
action on it, so (absent a stale `release()` on it) it can never be
handed out again. -/
def leakedSlot (s : PoolState) (i : Nat) : Prop :=
  (∃ c, s.connections[i]? = some c ∧ c.free = false ∧ c.broken = false ∧ c.connAlive = false)
  ∧ ∀ t, refAt s t i = false

/-! ## Concrete interleavings used as counterexamples and witnesses -/

/-- Capacity 1.  Task 0 acquires slot 0; task 1 queues; the link of slot 0
breaks, so `queueHandler` fulfills task 1 with slot 0 while its `broken`
flag is still set; before task 1's continuation runs, task 2's acquire
scans the pool, finds slot 0 `broken`, claims and repairs it. -/
def traceC1 : List Event :=
  [ .startAcquire, .finishInit 0 none, .startAcquire, .linkLost 0,
    .startAcquire, .finishRepair 2 none ]

/-- Capacity 1.  Teardown with task 1 queued, then a fresh acquire. -/
def traceC3 : List Event :=
  [ .startAcquire, .finishInit 0 none, .startAcquire, .emptyQueue ]

/-- Capacity 1.  Acquire after teardown: it succeeds. -/
def traceC3b : List Event :=
  [ .emptyQueue, .startAcquire, .finishInit 0 none ]

/-- Capacity 1.  Task 0 holds slot 0, tasks 1 and 2 queue; the link of
slot 0 breaks (task 1 is served the broken slot); then `release()` is
invoked on slot 0 through task 0's stale reference.  Slot 0 is Broken —
not Busy — at that point, yet the handler serves it to task 2 while
task 1 holds it. -/
def traceC4 : List Event :=
  [ .startAcquire, .finishInit 0 none, .startAcquire, .startAcquire,
    .linkLost 0, .misuseRelease 0 ]

/-- Capacity 1.  Task 0's slot breaks while idle is impossible, so: task 0
acquires and its link breaks; task 1 then selects the Broken slot 0 and
its repair fails with `ConnectError` (a connection-establishment failure,
which is not the `ConnectionError` class). -/
def traceC6 : List Event :=
  [ .startAcquire, .finishInit 0 none, .linkLost 0,
    .startAcquire, .finishRepair 1 (some .connectError) ]

/-- A state with one Broken slot and one queued waiter, fed to
`queueHandler`. -/
def stateC7 : PoolState :=
  { queue := [0], connections := [⟨true, false, 0, false⟩], size := 1
    connectionLimit := 1, tasks := [.waiting], log := [] }

/-- Capacity 2.  Task 0 holds slot 0; task 1's new slot 1 fails to
initialize with `ConnectError` (not a `ConnectionError`): slot 1 is
leaked. -/
def traceC9 : List Event :=
  [ .startAcquire, .finishInit 0 none, .startAcquire,
    .finishInit 1 (some .connectError) ]

/-- Events run after the leak in the C9 witness: a release of slot 0, a
further acquire and teardown; none of them touch the leaked slot 1. -/
def traceC9suffix : List Event :=
  [ .release 0, .startAcquire, .startAcquire, .emptyQueue ]

/-- Capacity 1.  Task 0 acquires and releases; tasks 1 and 2 queue while
task 0 holds the slot, and are served in order by the two releases. -/
def traceC2 : List Event :=
  [ .startAcquire, .finishInit 0 none, .startAcquire, .startAcquire,
    .release 0, .resumeWaiter 1, .release 1 ]

/-- Events that never mark a slot Broken: no link loss and no
connection-level failure.  Unlike `breakFree`, stale `release()` calls
(`misuseRelease`) are allowed. -/
def noBreakEv : Event → Bool
  | .linkLost _ => false
  | .finishInit _ (some e) => !isConnectionError e
  | .finishRepair _ (some e) => !isConnectionError e
  | _ => true

/-- In break-free executions a wait entry exists only while every slot is
claimed: no slot is Broken, and whenever the queue is non-empty no slot
is Free. -/
structure INoFree (s : PoolState) : Prop where
  noBroken : ∀ c ∈ s.connections, c.broken = false
  queueBusy : s.queue ≠ [] → ∀ c ∈ s.connections, c.free = false

/-! ## Helper lemmas -/

/-- `getElem? = some` gives an in-range index. -/
theorem getElem?_some_lt {α : Type} {l : List α} {i : Nat} {a : α}
    (h : l[i]? = some a) : i < l.length := by
  by_contra hc
  rw [List.getElem?_eq_none_iff.mpr (Nat.le_of_not_lt hc)] at h
  exact Option.noConfusion h

/-- Out-of-range tasks reference no slot. -/
theorem refL_of_le {ts : List TaskStatus} {t : Nat} (h : ts.length ≤ t) (i : Nat) :
    refL ts t i = false := by
  simp [refL, List.getElem?_eq_none_iff.mpr h]

/-- A referencing task is in range. -/
theorem refL_lt {ts : List TaskStatus} {t i : Nat} (h : refL ts t i = true) :
    t < ts.length := by
  by_contra hc
  rw [refL_of_le (Nat.le_of_not_lt hc)] at h
  exact Bool.noConfusion h

/-- Unfold `refL` through a known lookup. -/
theorem refL_eq_of_getElem {ts : List TaskStatus} {t : Nat} {st : TaskStatus}
    (h : ts[t]? = some st) (i : Nat) : refL ts t i = st.refs i := by
  simp [refL, h]

/-- `refL` after updating the same task. -/
theorem refL_set_self {ts : List TaskStatus} {t : Nat} (st : TaskStatus)
    (h : t < ts.length) (i : Nat) : refL (ts.set t st) t i = st.refs i := by
  simp [refL, List.getElem?_set_self h]

/-- `refL` after updating a different task. -/
theorem refL_set_ne {ts : List TaskStatus} {t t' : Nat} (st : TaskStatus)
    (h : t' ≠ t) (i : Nat) : refL (ts.set t' st) t i = refL ts t i := by
  simp [refL, List.getElem?_set_ne h]

/-- `refL` of an old task after appending a new one. -/
theorem refL_append_lt {ts ts' : List TaskStatus} {t : Nat}
    (h : t < ts.length) (i : Nat) : refL (ts ++ ts') t i = refL ts t i := by
  simp [refL, List.getElem?_append_left h]

/-- `refL` of the appended task. -/
theorem refL_concat_self (ts : List TaskStatus) (st : TaskStatus) (i : Nat) :
    refL (ts ++ [st]) ts.length i = st.refs i := by
  simp [refL, List.getElem?_concat_length]

/-- Folding `set` over ids preserves the length. -/
theorem foldlSet_length (q : List Nat) (ts : List TaskStatus) (v : TaskStatus) :
    (q.foldl (fun a u => a.set u v) ts).length = ts.length := by
  induction q generalizing ts with
  | nil => rfl
  | cons a q ih => simp [List.foldl_cons, ih, List.length_set]

/-- Folding `set` over ids leaves other indices unchanged. -/
theorem foldlSet_not_mem {q : List Nat} {t : Nat} (h : t ∉ q)
    (ts : List TaskStatus) (v : TaskStatus) :
    (q.foldl (fun a u => a.set u v) ts)[t]? = ts[t]? := by
  induction q generalizing ts with
  | nil => rfl
  | cons a q ih =>
    rw [List.mem_cons, not_or] at h
    rw [List.foldl_cons, ih h.2, List.getElem?_set_ne (Ne.symm h.1)]

/-- Folding `set` over ids writes `v` at every listed in-range index. -/
theorem foldlSet_mem {q : List Nat} {t : Nat} (h : t ∈ q)
    {ts : List TaskStatus} (ht : t < ts.length) (v : TaskStatus) :
    (q.foldl (fun a u => a.set u v) ts)[t]? = some v := by
  induction q generalizing ts with
  | nil => cases h
  | cons a q ih =>
    by_cases hq : t ∈ q
    · exact ih hq (by simpa [List.length_set] using ht)
    · have hta : t = a := by
        rcases List.mem_cons.mp h with h' | h'
        · exact h'
        · exact absurd h' hq
      subst hta
      rw [List.foldl_cons, foldlSet_not_mem hq, List.getElem?_set_self ht]

/-! ## Claim C10 — destroyed-socket behaviour of the basic wrapper -/

/-- C10: if the raw connection's `destroyed` flag is set, `execute`
rejects with "Socket Destroyed", but `executeCb` still writes the command
and still registers the reply/error listeners after invoking the error
callback (the guard does not return), so the callback fires a second time
when the socket's next event arrives. -/
theorem C10_destroyed_execute (conn : HiConn) (next : SockEvent)
    (h : conn.destroyed = true) :
    executeBasic conn next = some (Except.error "Socket Destroyed")
    ∧ (executeCb conn next).2 = true
    ∧ (executeCb conn next).1 =
        [Except.error "Socket Destroyed",
          match next with
          | .reply r => Except.ok r
          | .err m => Except.error m]
    ∧ (executeCb conn next).1.length = 2 := by
  refine ⟨?_, rfl, ?_, ?_⟩ <;> cases next <;> simp [executeBasic, executeCb, h]

/-- Witness for C10 at a concrete destroyed connection and a concrete
reply event. -/
theorem C10_destroyed_execute_witness :
    executeBasic ⟨true⟩ (.reply "PONG") = some (Except.error "Socket Destroyed")
    ∧ (executeCb ⟨true⟩ (.reply "PONG")).1.length = 2 :=
  ⟨(C10_destroyed_execute ⟨true⟩ (.reply "PONG") rfl).1,
   (C10_destroyed_execute ⟨true⟩ (.reply "PONG") rfl).2.2.2⟩

/-! ## Claim C5 — per-command error discipline of `PoolConnection.execute` -/

/-- C5: on a `ConnectionError` the slot sets `broken` and processes the
release notification before the error is re-raised (the returned state is
exactly the notified state, and the slot's `broken` flag is set in it);
on any other error the pool state is unchanged; and in every case the
outcome (reply or error) is passed through unmodified — never
swallowed. -/
theorem C5_execute_error_discipline (s : PoolState) (i : Nat) (c : Slot) (e : Err)
    (hc : s.connections[i]? = some c) :
    (isConnectionError e = true →
        (executePool s i (.error e)).1 =
          queueHandler
            { s with connections := s.connections.set i { c with broken := true } } i
        ∧ ((executePool s i (.error e)).1.connections[i]?).map Slot.broken = some true)
    ∧ (isConnectionError e = false → (executePool s i (.error e)).1 = s)
    ∧ (∀ r : Except Err String, (executePool s i r).2 = r) := by
  have hlen : i < s.connections.length := getElem?_some_lt hc
  refine ⟨?_, ?_, ?_⟩
  · intro hce
    have hstep : (executePool s i (.error e)).1 =
        queueHandler
          { s with connections := s.connections.set i { c with broken := true } } i := by
      simp [executePool, handleExecuteError, hce, hc]
    refine ⟨hstep, ?_⟩
    rw [hstep]
    have hget : (s.connections.set i { c with broken := true })[i]? =
        some { c with broken := true } := List.getElem?_set_self hlen
    unfold queueHandler
    simp only [hget]
    rw [if_neg (by simp)]
    cases hq : ({ s with connections := s.connections.set i { c with broken := true }
                  : PoolState }).queue with
    | nil => simp [hget]
    | cons t rest =>
      simp [List.getElem?_set_self, List.length_set, hlen]
  · intro hce
    simp [executePool, handleExecuteError, hce]
  · intro r
    cases r <;> rfl

/-- Witness for C5 at a concrete one-slot pool, a concrete
`ConnectionError` and a concrete protocol error. -/
theorem C5_execute_error_discipline_witness :
    ((executePool (run (initPool 1) [.startAcquire, .finishInit 0 none]) 0
        (.error (Err.connectionError "dead"))).1.connections[0]?).map Slot.broken
      = some true
    ∧ (executePool (run (initPool 1) [.startAcquire, .finishInit 0 none]) 0
        (.error (Err.commandError "bad"))).1
      = run (initPool 1) [.startAcquire, .finishInit 0 none] :=
  ⟨((C5_execute_error_discipline (run (initPool 1) [.startAcquire, .finishInit 0 none]) 0
      ⟨false, false, 0, true⟩ (Err.connectionError "dead") (by decide)).1 rfl).2,
   (C5_execute_error_discipline (run (initPool 1) [.startAcquire, .finishInit 0 none]) 0
      ⟨false, false, 0, true⟩ (Err.commandError "bad") (by decide)).2.1 rfl⟩

/-! ## Unfolding lemmas for `queueHandler`, `handleExecuteError` and `step` -/

/-- No slot at the index: the handler does nothing. -/
theorem queueHandler_none {s : PoolState} {i : Nat}
    (h : s.connections[i]? = none) : queueHandler s i = s := by
  simp only [queueHandler, h]

/-- The slot is Busy (neither free nor broken): the handler does nothing. -/
theorem queueHandler_busy {s : PoolState} {i : Nat} {c : Slot}
    (h : s.connections[i]? = some c) (hf : c.free = false) (hb : c.broken = false) :
    queueHandler s i = s := by
  simp only [queueHandler, h]
  rw [if_pos ⟨hf, hb⟩]

/-- Empty queue: the handler does nothing. -/
theorem queueHandler_empty {s : PoolState} {i : Nat} {c : Slot}
    (h : s.connections[i]? = some c) (hq : s.queue = []) :
    queueHandler s i = s := by
  simp only [queueHandler, h, hq]
  split <;> rfl

/-- Free-or-broken slot, non-empty queue: the head entry is served. -/
theorem queueHandler_serve {s : PoolState} {i : Nat} {c : Slot} {t : Nat} {rest : List Nat}
    (h : s.connections[i]? = some c) (hb : ¬(c.free = false ∧ c.broken = false))
    (hq : s.queue = t :: rest) :
    queueHandler s i =
      { s with
        connections := s.connections.set i { c with free := false }
        queue := rest
        tasks := s.tasks.set t (.fulfilled i)
        log := s.log ++ [.fulfill t i, .handout t i] } := by
  simp only [queueHandler, h, hq]
  rw [if_neg hb]

/-- The handler never touches a `broken` flag: every slot's `broken`
bit is the same before and after. -/
theorem queueHandler_broken_eq (s : PoolState) (i j : Nat) :
    ((queueHandler s i).connections[j]?).map Slot.broken =
      (s.connections[j]?).map Slot.broken := by
  unfold queueHandler
  split
  · rfl
  · rename_i c hc
    split
    · rfl
    · split
      · rfl
      · show ((s.connections.set i { c with free := false })[j]?).map Slot.broken = _
        by_cases hij : i = j
        · subst hij
          rw [List.getElem?_set_self (getElem?_some_lt hc), hc]
          rfl
        · rw [List.getElem?_set_ne hij]

/-- The handler only reassigns tasks whose entry is in the queue. -/
theorem queueHandler_tasks_not_queued {s : PoolState} {i t : Nat}
    (h : t ∉ s.queue) :
    (queueHandler s i).tasks[t]? = s.tasks[t]? := by
  unfold queueHandler
  split
  · rfl
  · split
    · rfl
    · split
      · rfl
      · rename_i hq
        show (s.tasks.set _ _)[t]? = _
        refine List.getElem?_set_ne (fun he => h ?_)
        rw [hq, he]
        exact List.mem_cons_self _ _

/-- Non-`ConnectionError`: `handleExecuteError` changes nothing. -/
theorem handleExecuteError_other {s : PoolState} {i : Nat} {e : Err}
    (he : isConnectionError e = false) : handleExecuteError s i e = s := by
  simp only [handleExecuteError, he, Bool.false_eq_true, if_false]

/-- `ConnectionError`: the slot is marked broken and the release
notification is processed. -/
theorem handleExecuteError_conn {s : PoolState} {i : Nat} {c : Slot} {e : Err}
    (he : isConnectionError e = true) (hc : s.connections[i]? = some c) :
    handleExecuteError s i e =
      queueHandler
        { s with connections := s.connections.set i { c with broken := true } } i := by
  simp only [handleExecuteError, he, if_true, hc]

/-- `handleExecuteError` only reassigns tasks whose entry is queued. -/
theorem handleExecuteError_tasks_not_queued {s : PoolState} {i t : Nat} {e : Err}
    (h : t ∉ s.queue) :
    (handleExecuteError s i e).tasks[t]? = s.tasks[t]? := by
  unfold handleExecuteError
  split
  · split
    · rfl
    · exact queueHandler_tasks_not_queued h
  · rfl

/-- On a `ConnectionError`, `handleExecuteError` leaves the slot with its
`broken` flag set (the notification handler never clears `broken`). -/
theorem handleExecuteError_broken_conn {s : PoolState} {i : Nat} {c : Slot} {e : Err}
    (he : isConnectionError e = true) (hc : s.connections[i]? = some c) :
    ((handleExecuteError s i e).connections[i]?).map Slot.broken = some true := by
  rw [handleExecuteError_conn he hc, queueHandler_broken_eq]
  rw [List.getElem?_set_self (getElem?_some_lt hc)]
  rfl

/-- `startAcquire` when the scan finds a free, non-broken slot. -/
theorem step_startAcquire_free {s : PoolState} {i : Nat} {c : Slot}
    (hf : s.connections.findIdx? (fun c => c.free || c.broken) = some i)
    (hc : s.connections[i]? = some c) (hb : c.broken = false) :
    step s .startAcquire =
      { s with
        connections := s.connections.set i { c with free := false }
        tasks := s.tasks ++ [.holding i]
        log := s.log ++ [.handout s.tasks.length i] } := by
  simp only [step, hf, hc, hb, Bool.false_eq_true, if_false]

/-- `startAcquire` when the scan finds a broken slot: the caller clears
`broken` and suspends in `repair()`. -/
theorem step_startAcquire_broken {s : PoolState} {i : Nat} {c : Slot}
    (hf : s.connections.findIdx? (fun c => c.free || c.broken) = some i)
    (hc : s.connections[i]? = some c) (hb : c.broken = true) :
    step s .startAcquire =
      { s with
        connections := s.connections.set i { c with free := false, broken := false }
        tasks := s.tasks ++ [.repairing i] } := by
  simp only [step, hf, hc, hb, if_true]

/-- `startAcquire` with no usable slot and spare capacity: a fresh slot is
pushed and the caller suspends in `initialize()`. -/
theorem step_startAcquire_new {s : PoolState}
    (hf : s.connections.findIdx? (fun c => c.free || c.broken) = none)
    (hcap : s.size < s.connectionLimit) :
    step s .startAcquire =
      { s with
        size := s.size + 1
        connections := s.connections ++ [⟨false, false, s.connections.length, false⟩]
        tasks := s.tasks ++ [.initNew s.connections.length] } := by
  simp only [step, hf, hcap, if_true]

/-- `startAcquire` with no usable slot at capacity: the caller queues. -/
theorem step_startAcquire_wait {s : PoolState}
    (hf : s.connections.findIdx? (fun c => c.free || c.broken) = none)
    (hcap : ¬ s.size < s.connectionLimit) :
    step s .startAcquire =
      { s with
        queue := s.queue ++ [s.tasks.length]
        tasks := s.tasks ++ [.waiting]
        log := s.log ++ [.enq s.tasks.length] } := by
  simp only [step, hf, hcap, if_false]

/-- `finishInit` success. -/
theorem step_finishInit_ok {s : PoolState} {t i : Nat} {c : Slot}
    (ht : s.tasks[t]? = some (.initNew i)) (hc : s.connections[i]? = some c) :
    step s (.finishInit t none) =
      { s with
        connections := s.connections.set i { c with connAlive := true }
        tasks := s.tasks.set t (.holding i)
        log := s.log ++ [.handout t i] } := by
  simp only [step, ht, hc]

/-- `finishInit` failure: the caller's promise is rejected, then
`handleExecuteError` runs. -/
theorem step_finishInit_err {s : PoolState} {t i : Nat} {c : Slot} {e : Err}
    (ht : s.tasks[t]? = some (.initNew i)) (hc : s.connections[i]? = some c) :
    step s (.finishInit t (some e)) =
      handleExecuteError
        { s with
          connections := s.connections.set i { c with connAlive := false }
          tasks := s.tasks.set t (.failed e) } i e := by
  simp only [step, ht, hc]

/-- `finishRepair` success. -/
theorem step_finishRepair_ok {s : PoolState} {t i : Nat} {c : Slot}
    (ht : s.tasks[t]? = some (.repairing i)) (hc : s.connections[i]? = some c) :
    step s (.finishRepair t none) =
      { s with
        connections := s.connections.set i { c with connAlive := true }
        tasks := s.tasks.set t (.holding i)
        log := s.log ++ [.handout t i] } := by
  simp only [step, ht, hc]

/-- `finishRepair` failure. -/
theorem step_finishRepair_err {s : PoolState} {t i : Nat} {c : Slot} {e : Err}
    (ht : s.tasks[t]? = some (.repairing i)) (hc : s.connections[i]? = some c) :
    step s (.finishRepair t (some e)) =
      handleExecuteError
        { s with
          connections := s.connections.set i { c with connAlive := false }
          tasks := s.tasks.set t (.failed e) } i e := by
  simp only [step, ht, hc]

/-- `resumeWaiter` on a fulfilled task whose slot is not broken. -/
theorem step_resumeWaiter_clean {s : PoolState} {t i : Nat} {c : Slot}
    (ht : s.tasks[t]? = some (.fulfilled i)) (hc : s.connections[i]? = some c)
    (hb : c.broken = false) :
    step s (.resumeWaiter t) =
      { s with
        connections := s.connections.set i { c with free := false }
        tasks := s.tasks.set t (.holding i) } := by
  simp only [step, ht, hc, hb, Bool.false_eq_true, if_false]

/-- `resumeWaiter` on a fulfilled task whose slot is broken: the waiter
clears `broken` and suspends in `repair()`. -/
theorem step_resumeWaiter_broken {s : PoolState} {t i : Nat} {c : Slot}
    (ht : s.tasks[t]? = some (.fulfilled i)) (hc : s.connections[i]? = some c)
    (hb : c.broken = true) :
    step s (.resumeWaiter t) =
      { s with
        connections := s.connections.set i { c with free := false, broken := false }
        tasks := s.tasks.set t (.repairing i) } := by
  simp only [step, ht, hc, hb, if_true]

/-- `release` by the holder of slot `i`. -/
theorem step_release {s : PoolState} {t i : Nat} {c : Slot}
    (ht : s.tasks[t]? = some (.holding i)) (hc : s.connections[i]? = some c) :
    step s (.release t) =
      queueHandler
        { s with
          connections := s.connections.set i { c with free := true }
          tasks := s.tasks.set t .released
          log := s.log ++ [.rel t i] } i := by
  simp only [step, ht, hc]

/-- `misuseRelease` on an existing slot. -/
theorem step_misuseRelease {s : PoolState} {i : Nat} {c : Slot}
    (hc : s.connections[i]? = some c) :
    step s (.misuseRelease i) =
      queueHandler
        { s with connections := s.connections.set i { c with free := true } } i := by
  simp only [step, hc]

/-- `linkLost` on an established link. -/
theorem step_linkLost_alive {s : PoolState} {i : Nat} {c : Slot}
    (hc : s.connections[i]? = some c) (ha : c.connAlive = true) :
    step s (.linkLost i) =
      queueHandler
        { s with
          connections := s.connections.set i { c with broken := true, connAlive := false }
          log := s.log ++ [.lost i] } i := by
  simp only [step, hc, ha, if_true]

/-- `linkLost` on a slot with no established link: nothing happens. -/
theorem step_linkLost_dead {s : PoolState} {i : Nat} {c : Slot}
    (hc : s.connections[i]? = some c) (ha : c.connAlive = false) :
    step s (.linkLost i) = s := by
  simp only [step, hc, ha, Bool.false_eq_true, if_false]

/-- `emptyQueue`. -/
theorem step_emptyQueue (s : PoolState) :
    step s .emptyQueue =
      { s with
        queue := []
        tasks := s.queue.foldl (fun ts u => ts.set u (.failed teardownError)) s.tasks
        log := s.log ++ s.queue.map .reject } := rfl

/-- Any event whose named task does not have the matching status is a
no-op (`finishInit`). -/
theorem step_finishInit_stale {s : PoolState} {t : Nat} {r : Option Err}
    (h : ∀ i : Nat, s.tasks[t]? ≠ some (.initNew i)) :
    step s (.finishInit t r) = s := by
  simp only [step]

/-- Any event whose named task does not have the matching status is a
no-op (`finishRepair`). -/
theorem step_finishRepair_stale {s : PoolState} {t : Nat} {r : Option Err}
    (h : ∀ i : Nat, s.tasks[t]? ≠ some (.repairing i)) :
    step s (.finishRepair t r) = s := by
  simp only [step]

/-- Any event whose named task does not have the matching status is a
no-op (`resumeWaiter`). -/
theorem step_resumeWaiter_stale {s : PoolState} {t : Nat}
    (h : ∀ i : Nat, s.tasks[t]? ≠ some (.fulfilled i)) :
    step s (.resumeWaiter t) = s := by
  simp only [step]

/-- Any event whose named task does not have the matching status is a
no-op (`release`). -/
theorem step_release_stale {s : PoolState} {t : Nat}
    (h : ∀ i : Nat, s.tasks[t]? ≠ some (.holding i)) :
    step s (.release t) = s := by
  simp only [step]

/-- Events addressed to a nonexistent slot are no-ops. -/
theorem step_misuseRelease_none {s : PoolState} {i : Nat}
    (hc : s.connections[i]? = none) :
    step s (.misuseRelease i) = s := by
  simp only [step, hc]

/-- `linkLost` on a nonexistent slot is a no-op. -/
theorem step_linkLost_none {s : PoolState} {i : Nat}
    (hc : s.connections[i]? = none) :
    step s (.linkLost i) = s := by
  simp only [step, hc]

/-- `finishInit` on an existing task but vanished slot is a no-op. -/
theorem step_finishInit_noslot {s : PoolState} {t i : Nat} {r : Option Err}
    (ht : s.tasks[t]? = some (.initNew i)) (hc : s.connections[i]? = none) :
    step s (.finishInit t r) = s := by
  simp only [step, ht, hc]

/-- `finishRepair` on an existing task but vanished slot is a no-op. -/
theorem step_finishRepair_noslot {s : PoolState} {t i : Nat} {r : Option Err}
    (ht : s.tasks[t]? = some (.repairing i)) (hc : s.connections[i]? = none) :
    step s (.finishRepair t r) = s := by
  simp only [step, ht, hc]

/-- `resumeWaiter` on an existing task but vanished slot is a no-op. -/
theorem step_resumeWaiter_noslot {s : PoolState} {t i : Nat}
    (ht : s.tasks[t]? = some (.fulfilled i)) (hc : s.connections[i]? = none) :
    step s (.resumeWaiter t) = s := by
  simp only [step, ht, hc]

/-- `release` on an existing task but vanished slot is a no-op. -/
theorem step_release_noslot {s : PoolState} {t i : Nat}
    (ht : s.tasks[t]? = some (.holding i)) (hc : s.connections[i]? = none) :
    step s (.release t) = s := by
  simp only [step, ht, hc]

/-! ## Claim C7 — the release-notification handler -/

/-- C7 is false as stated: when the wait queue is non-empty and slot `i`
is Broken, `queueHandler` does pop the head entry and fulfill it with
slot `i`, but it only clears `free` — the slot is handed out with
`broken` still set, i.e. not Busy. -/
theorem C7_counterexample :
    (queueHandler stateC7 0).queue = []
    ∧ (queueHandler stateC7 0).tasks[0]? = some (TaskStatus.fulfilled 0)
    ∧ ((queueHandler stateC7 0).connections[0]?).map Slot.broken = some true := by
  decide

/-- C7 (amended): for a release notification on slot `i`: if the slot is
neither Free nor Broken the handler changes nothing; if the wait queue is
empty it changes nothing; otherwise it removes exactly the head entry,
clears the slot's `free` flag — leaving `broken` unchanged, so a Broken
slot is handed out still Broken — and fulfills the head entry with
slot `i`. -/
theorem C7_queueHandler_spec (s : PoolState) (i : Nat) (c : Slot)
    (hc : s.connections[i]? = some c) :
    (c.free = false ∧ c.broken = false → queueHandler s i = s)
    ∧ (s.queue = [] → queueHandler s i = s)
    ∧ (∀ (t : Nat) (rest : List Nat),
        ¬(c.free = false ∧ c.broken = false) → s.queue = t :: rest →
        queueHandler s i =
          { s with
            connections := s.connections.set i { c with free := false }
            queue := rest
            tasks := s.tasks.set t (.fulfilled i)
            log := s.log ++ [.fulfill t i, .handout t i] }) :=
  ⟨fun hfb => queueHandler_busy hc hfb.1 hfb.2,
   fun hq => queueHandler_empty hc hq,
   fun _ _ hfb hq => queueHandler_serve hc hfb hq⟩

/-- Witness for the amended C7 at the concrete Broken-slot state. -/
theorem C7_queueHandler_spec_witness :
    queueHandler stateC7 0 =
      { stateC7 with
        connections := [⟨true, false, 0, false⟩]
        queue := []
        tasks := [.fulfilled 0]
        log := [.fulfill 0 0, .handout 0 0] } :=
  (C7_queueHandler_spec stateC7 0 ⟨true, false, 0, false⟩ rfl).2.2 0 []
    (by decide) rfl

/-! ## Claim C6 — repair failure -/

/-- C6 is false as stated: in `traceC6` task 1 selects the Broken slot 0,
`getOldConnection` clears `broken` before `await conn.repair()`, and the
repair fails with `ConnectError` (connection establishment failed — not
the `ConnectionError` class, which is the only class `handleExecuteError`
recognizes).  The error does propagate to task 1, but the slot is left
with `broken = false`: it does not remain Broken. -/
theorem C6_counterexample :
    (run (initPool 1) traceC6).tasks[1]? = some (TaskStatus.failed .connectError)
    ∧ ((run (initPool 1) traceC6).connections[0]?).map Slot.broken = some false := by
  decide

/-- C6 (amended): when a repair finishes with an error, the error always
propagates to the requesting caller; but the slot is re-marked Broken
only if the error is a `ConnectionError` — for every other error
(including the spec's `ConnectError` establishment failure) the slot is
left with `broken = false`, `free = false` and no established link. -/
theorem C6_repair_failure (s : PoolState) (t i : Nat) (c : Slot) (e : Err)
    (ht : s.tasks[t]? = some (.repairing i))
    (hc : s.connections[i]? = some c)
    (htq : t ∉ s.queue) :
    ((step s (.finishRepair t (some e))).tasks[t]? = some (.failed e))
    ∧ (isConnectionError e = false →
        (step s (.finishRepair t (some e))).connections[i]? =
          some { c with connAlive := false })
    ∧ (isConnectionError e = true →
        ((step s (.finishRepair t (some e))).connections[i]?).map Slot.broken
          = some true) := by
  have hlen : i < s.connections.length := getElem?_some_lt hc
  have htlen : t < s.tasks.length := getElem?_some_lt ht
  rw [step_finishRepair_err ht hc]
  have htq' : t ∉ ({ s with
      connections := s.connections.set i { c with connAlive := false }
      tasks := s.tasks.set t (.failed e) } : PoolState).queue := htq
  have hc' : ({ s with
      connections := s.connections.set i { c with connAlive := false }
      tasks := s.tasks.set t (.failed e) } : PoolState).connections[i]? =
      some { c with connAlive := false } := List.getElem?_set_self hlen
  refine ⟨(handleExecuteError_tasks_not_queued htq').trans (List.getElem?_set_self htlen),
    fun hf => ?_,
    fun hce => handleExecuteError_broken_conn hce hc'⟩
  rw [handleExecuteError_other hf]
  exact List.getElem?_set_self hlen

/-- Witness for the amended C6: the state of `traceC6` just before the
repair completes, failing once with `ConnectError` (broken stays false)
and, at the same state, the `ConnectionError` half via a different
error. -/
theorem C6_repair_failure_witness :
    ((step (run (initPool 1) (traceC6.take 4)) (.finishRepair 1 (some .connectError))).connections[0]?
      = some ⟨false, false, 0, false⟩)
    ∧ ((step (run (initPool 1) (traceC6.take 4))
          (.finishRepair 1 (some (.connectionError "x")))).connections[0]?).map Slot.broken
      = some true :=
  ⟨by
    have h := (C6_repair_failure (run (initPool 1) (traceC6.take 4)) 1 0
      ⟨false, false, 0, false⟩ .connectError (by decide) (by decide) (by decide)).2.1 rfl
    simpa using h,
   (C6_repair_failure (run (initPool 1) (traceC6.take 4)) 1 0
      ⟨false, false, 0, false⟩ (.connectionError "x") (by decide) (by decide)
      (by decide)).2.2 rfl⟩

/-! ## Claim C3 — teardown -/

/-- C3 is false as stated: after teardown (`emptyQueue`) the queued waiter
has been rejected with `ConnectionError("No live TCP connection")` — not
with a `PoolClosed` error (no such state or error exists in the pool) —
and a brand-new `getConnection` call after teardown succeeds instead of
failing. -/
theorem C3_counterexample :
    (run (initPool 1) traceC3).tasks[1]? = some (TaskStatus.failed teardownError)
    ∧ teardownError ≠ Err.poolClosed
    ∧ (run (initPool 1) traceC3b).tasks[0]? = some (TaskStatus.holding 0) := by
  decide

/-- C3 (amended): teardown (`emptyQueue`) empties the wait queue and
rejects every queued entry with the terminal
`ConnectionError("No live TCP connection")`; the pool keeps no closed
flag, so later `getConnection` calls are not rejected. -/
theorem C3_teardown_rejects (s : PoolState) :
    (step s .emptyQueue).queue = []
    ∧ ∀ t : Nat, t ∈ s.queue → t < s.tasks.length →
        (step s .emptyQueue).tasks[t]? = some (.failed teardownError) := by
  rw [step_emptyQueue]
  exact ⟨rfl, fun _ hm hb => foldlSet_mem hm hb _⟩

/-- Witness for the amended C3 at a concrete pool with one queued
waiter. -/
theorem C3_teardown_rejects_witness :
    (step (run (initPool 1) (traceC3.take 3)) .emptyQueue).tasks[1]? =
      some (TaskStatus.failed teardownError) :=
  (C3_teardown_rejects (run (initPool 1) (traceC3.take 3))).2 1 (by decide) (by decide)

/-! ## Counterexamples to C1 and C4 as stated -/

/-- C1 is false as stated: in `traceC1` slot 0 is handed to task 1 (by
wait-queue fulfillment, log position 4) and then to task 2 (directly by
the scan plus repair, log position 5) with no release by task 1 and no
link loss in between.  The root cause: `queueHandler` fulfilled task 1
with the slot while its `broken` flag was still set, and before task 1's
continuation resumed, task 2's scan found the slot `broken` and claimed
it. -/
theorem C1_counterexample : ¬ exclusiveHandouts (run (initPool 1) traceC1).log := by
  intro h
  obtain ⟨r, hr1, hr2, -⟩ :=
    h 4 5 1 2 0 (by decide) (by decide) (by decide) (by decide)
  omega

/-- C4 is false as stated: in `traceC4`, at the moment of the stale
`release()` call slot 0 is not Busy (it is Broken: `free = false`,
`broken = true`) and is currently held by task 1 (its wait entry was
fulfilled with the slot); the release nevertheless makes the handler
serve the very same slot to waiting task 2, so a waiter is served a slot
another caller currently holds. -/
theorem C4_counterexample :
    (((run (initPool 1) (traceC4.take 5)).connections[0]?).map
        (fun c => (c.free, c.broken)) = some (false, true))
    ∧ holdsSlot (run (initPool 1) (traceC4.take 5)) 1 0 = true
    ∧ holdsSlot (run (initPool 1) traceC4) 1 0 = true
    ∧ holdsSlot (run (initPool 1) traceC4) 2 0 = true := by
  decide

/-! ## Growth invariant (claim C8) -/

/-- Updating a slot with one of equal `idx` preserves the index
invariant. -/
theorem idxInv_set {l : List Slot} {i : Nat} {c cNew : Slot}
    (hidx : ∀ (k : Nat) (c' : Slot), l[k]? = some c' → c'.idx = k)
    (hc : l[i]? = some c) (hnew : cNew.idx = c.idx) :
    ∀ (k : Nat) (c' : Slot), (l.set i cNew)[k]? = some c' → c'.idx = k := by
  intro k c' hk
  by_cases hik : i = k
  · subst hik
    rw [List.getElem?_set_self (getElem?_some_lt hc)] at hk
    cases hk
    rw [hnew]
    exact hidx i c hc
  · rw [List.getElem?_set_ne hik] at hk
    exact hidx k c' hk

/-- Appending a slot carrying the next index preserves the index
invariant. -/
theorem idxInv_append {l : List Slot}
    (hidx : ∀ (k : Nat) (c' : Slot), l[k]? = some c' → c'.idx = k)
    {c : Slot} (hc : c.idx = l.length) :
    ∀ (k : Nat) (c' : Slot), (l ++ [c])[k]? = some c' → c'.idx = k := by
  intro k c' hk
  by_cases hlt : k < l.length
  · rw [List.getElem?_append_left hlt] at hk
    exact hidx k c' hk
  · have hk2 := getElem?_some_lt hk
    have hklen : k = l.length := by
      simp only [List.length_append, List.length_cons, List.length_nil] at hk2
      omega
    subst hklen
    rw [List.getElem?_concat_length] at hk
    cases hk
    exact hc

/-- `queueHandler` preserves the growth invariant. -/
theorem sizeInv_queueHandler {s : PoolState} (h : sizeInv s) (i : Nat) :
    sizeInv (queueHandler s i) := by
  unfold queueHandler
  split
  · exact h
  · rename_i c hc
    split
    · exact h
    · split
      · exact h
      · obtain ⟨h1, h2, h3⟩ := h
        exact ⟨by simpa [List.length_set] using h1, h2, idxInv_set h3 hc rfl⟩

/-- `handleExecuteError` preserves the growth invariant. -/
theorem sizeInv_handleExecuteError {s : PoolState} (h : sizeInv s) (i : Nat) (e : Err) :
    sizeInv (handleExecuteError s i e) := by
  unfold handleExecuteError
  split
  · split
    · exact h
    · rename_i c hc
      refine sizeInv_queueHandler ?_ i
      refine ⟨?_, h.2.1, idxInv_set h.2.2 hc rfl⟩
      simpa [List.length_set] using h.1
  · exact h

/-- One step preserves the growth invariant. -/
theorem sizeInv_step {s : PoolState} (h : sizeInv s) (e : Event) :
    sizeInv (step s e) := by
  obtain ⟨h1, h2, h3⟩ := h
  cases e with
  | startAcquire =>
    cases hf : s.connections.findIdx? (fun c => c.free || c.broken) with
    | some i =>
      cases hc : s.connections[i]? with
      | none => simp only [step, hf, hc]; exact ⟨h1, h2, h3⟩
      | some c =>
        by_cases hb : c.broken = true
        · rw [step_startAcquire_broken hf hc hb]
          exact ⟨by simpa [List.length_set] using h1, h2, idxInv_set h3 hc rfl⟩
        · rw [step_startAcquire_free hf hc (by simpa using hb)]
          exact ⟨by simpa [List.length_set] using h1, h2, idxInv_set h3 hc rfl⟩
    | none =>
      by_cases hcap : s.size < s.connectionLimit
      · rw [step_startAcquire_new hf hcap]
        refine ⟨?_, hcap, idxInv_append h3 rfl⟩
        simp [List.length_append, h1]
      · rw [step_startAcquire_wait hf hcap]
        exact ⟨h1, h2, h3⟩
  | finishInit t r =>
    cases ht : s.tasks[t]? with
    | none => rw [step_finishInit_stale (by simp [ht])]; exact ⟨h1, h2, h3⟩
    | some st =>
      cases st with
      | initNew i =>
        cases hc : s.connections[i]? with
        | none => rw [step_finishInit_noslot ht hc]; exact ⟨h1, h2, h3⟩
        | some c =>
          cases r with
          | none =>
            rw [step_finishInit_ok ht hc]
            exact ⟨by simpa [List.length_set] using h1, h2, idxInv_set h3 hc rfl⟩
          | some e =>
            rw [step_finishInit_err ht hc]
            refine sizeInv_handleExecuteError ?_ i e
            refine ⟨?_, h2, idxInv_set h3 hc rfl⟩
            simpa [List.length_set] using h1
      | repairing i => rw [step_finishInit_stale (by simp [ht])]; exact ⟨h1, h2, h3⟩
      | waiting => rw [step_finishInit_stale (by simp [ht])]; exact ⟨h1, h2, h3⟩
      | fulfilled i => rw [step_finishInit_stale (by simp [ht])]; exact ⟨h1, h2, h3⟩
      | holding i => rw [step_finishInit_stale (by simp [ht])]; exact ⟨h1, h2, h3⟩
      | released => rw [step_finishInit_stale (by simp [ht])]; exact ⟨h1, h2, h3⟩
      | failed e => rw [step_finishInit_stale (by simp [ht])]; exact ⟨h1, h2, h3⟩
  | finishRepair t r =>
    cases ht : s.tasks[t]? with
    | none => rw [step_finishRepair_stale (by simp [ht])]; exact ⟨h1, h2, h3⟩
    | some st =>
      cases st with
      | repairing i =>
        cases hc : s.connections[i]? with
        | none => rw [step_finishRepair_noslot ht hc]; exact ⟨h1, h2, h3⟩
        | some c =>
          cases r with
          | none =>
            rw [step_finishRepair_ok ht hc]
            exact ⟨by simpa [List.length_set] using h1, h2, idxInv_set h3 hc rfl⟩
          | some e =>
            rw [step_finishRepair_err ht hc]
            refine sizeInv_handleExecuteError ?_ i e
            refine ⟨?_, h2, idxInv_set h3 hc rfl⟩
            simpa [List.length_set] using h1
      | initNew i => rw [step_finishRepair_stale (by simp [ht])]; exact ⟨h1, h2, h3⟩
      | waiting => rw [step_finishRepair_stale (by simp [ht])]; exact ⟨h1, h2, h3⟩
      | fulfilled i => rw [step_finishRepair_stale (by simp [ht])]; exact ⟨h1, h2, h3⟩
      | holding i => rw [step_finishRepair_stale (by simp [ht])]; exact ⟨h1, h2, h3⟩
      | released => rw [step_finishRepair_stale (by simp [ht])]; exact ⟨h1, h2, h3⟩
      | failed e => rw [step_finishRepair_stale (by simp [ht])]; exact ⟨h1, h2, h3⟩
  | resumeWaiter t =>
    cases ht : s.tasks[t]? with
    | none => rw [step_resumeWaiter_stale (by simp [ht])]; exact ⟨h1, h2, h3⟩
    | some st =>
      cases st with
      | fulfilled i =>
        cases hc : s.connections[i]? with
        | none => rw [step_resumeWaiter_noslot ht hc]; exact ⟨h1, h2, h3⟩
        | some c =>
          by_cases hb : c.broken = true
          · rw [step_resumeWaiter_broken ht hc hb]
            exact ⟨by simpa [List.length_set] using h1, h2, idxInv_set h3 hc rfl⟩
          · rw [step_resumeWaiter_clean ht hc (by simpa using hb)]
            exact ⟨by simpa [List.length_set] using h1, h2, idxInv_set h3 hc rfl⟩
      | initNew i => rw [step_resumeWaiter_stale (by simp [ht])]; exact ⟨h1, h2, h3⟩
      | repairing i => rw [step_resumeWaiter_stale (by simp [ht])]; exact ⟨h1, h2, h3⟩
      | waiting => rw [step_resumeWaiter_stale (by simp [ht])]; exact ⟨h1, h2, h3⟩
      | holding i => rw [step_resumeWaiter_stale (by simp [ht])]; exact ⟨h1, h2, h3⟩
      | released => rw [step_resumeWaiter_stale (by simp [ht])]; exact ⟨h1, h2, h3⟩
      | failed e => rw [step_resumeWaiter_stale (by simp [ht])]; exact ⟨h1, h2, h3⟩
  | release t =>
    cases ht : s.tasks[t]? with
    | none => rw [step_release_stale (by simp [ht])]; exact ⟨h1, h2, h3⟩
    | some st =>
      cases st with
      | holding i =>
        cases hc : s.connections[i]? with
        | none => rw [step_release_noslot ht hc]; exact ⟨h1, h2, h3⟩
        | some c =>
          rw [step_release ht hc]
          refine sizeInv_queueHandler ?_ i
          refine ⟨?_, h2, idxInv_set h3 hc rfl⟩
          simpa [List.length_set] using h1
      | initNew i => rw [step_release_stale (by simp [ht])]; exact ⟨h1, h2, h3⟩
      | repairing i => rw [step_release_stale (by simp [ht])]; exact ⟨h1, h2, h3⟩
      | waiting => rw [step_release_stale (by simp [ht])]; exact ⟨h1, h2, h3⟩
      | fulfilled i => rw [step_release_stale (by simp [ht])]; exact ⟨h1, h2, h3⟩
      | released => rw [step_release_stale (by simp [ht])]; exact ⟨h1, h2, h3⟩
      | failed e => rw [step_release_stale (by simp [ht])]; exact ⟨h1, h2, h3⟩
  | misuseRelease i =>
    cases hc : s.connections[i]? with
    | none => rw [step_misuseRelease_none hc]; exact ⟨h1, h2, h3⟩
    | some c =>
      rw [step_misuseRelease hc]
      refine sizeInv_queueHandler ?_ i
      refine ⟨?_, h2, idxInv_set h3 hc rfl⟩
      simpa [List.length_set] using h1
  | linkLost i =>
    cases hc : s.connections[i]? with
    | none => rw [step_linkLost_none hc]; exact ⟨h1, h2, h3⟩
    | some c =>
      by_cases ha : c.connAlive = true
      · rw [step_linkLost_alive hc ha]
        refine sizeInv_queueHandler ?_ i
        refine ⟨?_, h2, idxInv_set h3 hc rfl⟩
        simpa [List.length_set] using h1
      · rw [step_linkLost_dead hc (by simpa using ha)]
        exact ⟨h1, h2, h3⟩
  | emptyQueue =>
    rw [step_emptyQueue]
    exact ⟨h1, h2, h3⟩

/-- The handler never changes the configured limit. -/
theorem queueHandler_connectionLimit (s : PoolState) (i : Nat) :
    (queueHandler s i).connectionLimit = s.connectionLimit := by
  unfold queueHandler
  split
  · rfl
  · split
    · rfl
    · split <;> rfl

/-- `handleExecuteError` never changes the configured limit. -/
theorem handleExecuteError_connectionLimit (s : PoolState) (i : Nat) (e : Err) :
    (handleExecuteError s i e).connectionLimit = s.connectionLimit := by
  unfold handleExecuteError
  split
  · split
    · rfl
    · rw [queueHandler_connectionLimit]
  · rfl

/-- No step changes the configured limit. -/
theorem step_connectionLimit (s : PoolState) (e : Event) :
    (step s e).connectionLimit = s.connectionLimit := by
  cases e <;> unfold step <;> (repeat' split) <;>
    simp_all [queueHandler_connectionLimit, handleExecuteError_connectionLimit]

/-- The handler never changes the number of slots. -/
theorem queueHandler_connections_length (s : PoolState) (i : Nat) :
    (queueHandler s i).connections.length = s.connections.length := by
  unfold queueHandler
  split
  · rfl
  · split
    · rfl
    · split
      · rfl
      · simp [List.length_set]

/-- `handleExecuteError` never changes the number of slots. -/
theorem handleExecuteError_connections_length (s : PoolState) (i : Nat) (e : Err) :
    (handleExecuteError s i e).connections.length = s.connections.length := by
  unfold handleExecuteError
  split
  · split
    · rfl
    · rw [queueHandler_connections_length]
      simp [List.length_set]
  · rfl

/-- Slots are never removed: the slot count is monotone. -/
theorem step_connections_length_mono (s : PoolState) (e : Event) :
    s.connections.length ≤ (step s e).connections.length := by
  cases e <;> unfold step <;> (repeat' split) <;>
    simp_all [queueHandler_connections_length, handleExecuteError_connections_length,
      List.length_set]

/-- The handler never changes `size`. -/
theorem queueHandler_size (s : PoolState) (i : Nat) :
    (queueHandler s i).size = s.size := by
  unfold queueHandler
  split
  · rfl
  · split
    · rfl
    · split <;> rfl

/-- `handleExecuteError` never changes `size`. -/
theorem handleExecuteError_size (s : PoolState) (i : Nat) (e : Err) :
    (handleExecuteError s i e).size = s.size := by
  unfold handleExecuteError
  split
  · split
    · rfl
    · rw [queueHandler_size]
  · rfl

/-- `size` is never decremented. -/
theorem step_size_mono (s : PoolState) (e : Event) :
    s.size ≤ (step s e).size := by
  cases e <;> unfold step <;> (repeat' split) <;>
    simp_all [queueHandler_size, handleExecuteError_size]

/-- Running a concatenation is running the pieces in order. -/
theorem run_append (s : PoolState) (es es2 : List Event) :
    run s (es ++ es2) = run (run s es) es2 :=
  List.foldl_append step s es es2

/-- The growth invariant holds along every run. -/
theorem sizeInv_run {s : PoolState} (h : sizeInv s) (es : List Event) :
    sizeInv (run s es) := by
  induction es generalizing s with
  | nil => exact h
  | cons e es ih => exact ih (sizeInv_step h e)

/-- The configured limit is constant along every run. -/
theorem run_connectionLimit (s : PoolState) (es : List Event) :
    (run s es).connectionLimit = s.connectionLimit := by
  induction es generalizing s with
  | nil => rfl
  | cons e es ih => exact (ih (step s e)).trans (step_connectionLimit s e)

/-- The slot count is monotone along every run. -/
theorem run_connections_length_mono (s : PoolState) (es : List Event) :
    s.connections.length ≤ (run s es).connections.length := by
  induction es generalizing s with
  | nil => exact Nat.le_refl _
  | cons e es ih =>
    exact Nat.le_trans (step_connections_length_mono s e) (ih (step s e))

/-- `size` is monotone along every run. -/
theorem run_size_mono (s : PoolState) (es : List Event) :
    s.size ≤ (run s es).size := by
  induction es generalizing s with
  | nil => exact Nat.le_refl _
  | cons e es ih => exact Nat.le_trans (step_size_mono s e) (ih (step s e))

/-- The growth invariant holds at the initial pool. -/
theorem sizeInv_initPool (cap : Nat) : sizeInv (initPool cap) :=
  ⟨rfl, Nat.zero_le cap, fun k c h => by simp [initPool] at h⟩

/-! ## Claim C8 — bounded monotonic growth -/

/-- C8: along every interleaving the pool never holds more than
`connectionLimit` slots, every slot's immutable `idx` equals its position
in the slot array, slots are only appended (the count is monotone along
any continuation of the run), and a slot's index never changes for its
lifetime. -/
theorem C8_bounded_growth (cap : Nat) (es es2 : List Event) :
    (run (initPool cap) es).connections.length ≤ cap
    ∧ (∀ (k : Nat) (c : Slot),
        (run (initPool cap) es).connections[k]? = some c → c.idx = k)
    ∧ (run (initPool cap) es).connections.length ≤
        (run (initPool cap) (es ++ es2)).connections.length
    ∧ (∀ (k : Nat) (c c' : Slot),
        (run (initPool cap) es).connections[k]? = some c →
        (run (initPool cap) (es ++ es2)).connections[k]? = some c' →
        c'.idx = c.idx) := by
  have hinv : sizeInv (run (initPool cap) es) :=
    sizeInv_run (sizeInv_initPool cap) es
  have hinv2 : sizeInv (run (initPool cap) (es ++ es2)) :=
    sizeInv_run (sizeInv_initPool cap) (es ++ es2)
  have hlim : (run (initPool cap) es).connectionLimit = cap :=
    run_connectionLimit (initPool cap) es
  refine ⟨?_, hinv.2.2, ?_, ?_⟩
  · calc (run (initPool cap) es).connections.length
        = (run (initPool cap) es).size := hinv.1
      _ ≤ (run (initPool cap) es).connectionLimit := hinv.2.1
      _ = cap := hlim
  · rw [run_append]
    exact run_connections_length_mono _ es2
  · intro k c c' h h'
    rw [hinv2.2.2 k c' h', hinv.2.2 k c h]

/-- Witness for C8 at a concrete capacity-1 interleaving. -/
theorem C8_bounded_growth_witness :
    (run (initPool 1) traceC2).connections.length ≤ 1
    ∧ (⟨false, false, 0, true⟩ : Slot).idx = 0 :=
  ⟨(C8_bounded_growth 1 traceC2 []).1,
   (C8_bounded_growth 1 traceC2 []).2.1 0 ⟨false, false, 0, true⟩ (by decide)⟩

/-- Case-analysis principle for `step`: to prove a property of `step s e`
it suffices to prove it for the no-op branches (`hid`) and for each of
the ten genuine transition shapes.  `finishInit` and `finishRepair`
produce identical records, so they share premises. -/
theorem step_rec {motive : PoolState → Prop} (s : PoolState) (e : Event)
    (hid : motive s)
    (hAfree : ∀ (i : Nat) (c : Slot),
      s.connections.findIdx? (fun c => c.free || c.broken) = some i →
      s.connections[i]? = some c → c.broken = false →
      motive { s with
        connections := s.connections.set i { c with free := false }
        tasks := s.tasks ++ [.holding i]
        log := s.log ++ [.handout s.tasks.length i] })
    (hAbroken : ∀ (i : Nat) (c : Slot),
      s.connections.findIdx? (fun c => c.free || c.broken) = some i →
      s.connections[i]? = some c → c.broken = true →
      motive { s with
        connections := s.connections.set i { c with free := false, broken := false }
        tasks := s.tasks ++ [.repairing i] })
    (hAnew :
      s.connections.findIdx? (fun c => c.free || c.broken) = none →
      s.size < s.connectionLimit →
      motive { s with
        size := s.size + 1
        connections := s.connections ++ [⟨false, false, s.connections.length, false⟩]
        tasks := s.tasks ++ [.initNew s.connections.length] })
    (hAwait :
      s.connections.findIdx? (fun c => c.free || c.broken) = none →
      ¬ s.size < s.connectionLimit →
      motive { s with
        queue := s.queue ++ [s.tasks.length]
        tasks := s.tasks ++ [.waiting]
        log := s.log ++ [.enq s.tasks.length] })
    (hFin : ∀ (t i : Nat) (c : Slot),
      (s.tasks[t]? = some (.initNew i) ∨ s.tasks[t]? = some (.repairing i)) →
      s.connections[i]? = some c →
      motive { s with
        connections := s.connections.set i { c with connAlive := true }
        tasks := s.tasks.set t (.holding i)
        log := s.log ++ [.handout t i] })
    (hFinErr : ∀ (t i : Nat) (c : Slot) (e' : Err),
      (s.tasks[t]? = some (.initNew i) ∨ s.tasks[t]? = some (.repairing i)) →
      s.connections[i]? = some c →
      (e = .finishInit t (some e') ∨ e = .finishRepair t (some e')) →
      motive (handleExecuteError { s with
        connections := s.connections.set i { c with connAlive := false }
        tasks := s.tasks.set t (.failed e') } i e'))
    (hWclean : ∀ (t i : Nat) (c : Slot),
      s.tasks[t]? = some (.fulfilled i) → s.connections[i]? = some c →
      c.broken = false →
      motive { s with
        connections := s.connections.set i { c with free := false }
        tasks := s.tasks.set t (.holding i) })
    (hWbroken : ∀ (t i : Nat) (c : Slot),
      s.tasks[t]? = some (.fulfilled i) → s.connections[i]? = some c →
      c.broken = true →
      motive { s with
        connections := s.connections.set i { c with free := false, broken := false }
        tasks := s.tasks.set t (.repairing i) })
    (hRel : ∀ (t i : Nat) (c : Slot),
      s.tasks[t]? = some (.holding i) → s.connections[i]? = some c →
      motive (queueHandler { s with
        connections := s.connections.set i { c with free := true }
        tasks := s.tasks.set t .released
        log := s.log ++ [.rel t i] } i))
    (hMis : ∀ (i : Nat) (c : Slot),
      s.connections[i]? = some c → e = .misuseRelease i →
      motive (queueHandler { s with
        connections := s.connections.set i { c with free := true } } i))
    (hLost : ∀ (i : Nat) (c : Slot),
      s.connections[i]? = some c → c.connAlive = true → e = .linkLost i →
      motive (queueHandler { s with
        connections := s.connections.set i { c with broken := true, connAlive := false }
        log := s.log ++ [.lost i] } i))
    (hEmpty : motive { s with
        queue := []
        tasks := s.queue.foldl (fun ts u => ts.set u (.failed teardownError)) s.tasks
        log := s.log ++ s.queue.map .reject }) :
    motive (step s e) := by
  cases e with
  | startAcquire =>
    cases hf : s.connections.findIdx? (fun c => c.free || c.broken) with
    | some i =>
      cases hc : s.connections[i]? with
      | none => simp only [step, hf, hc]; exact hid
      | some c =>
        by_cases hb : c.broken = true
        · rw [step_startAcquire_broken hf hc hb]; exact hAbroken i c hf hc hb
        · have hb' : c.broken = false := by simpa using hb
          rw [step_startAcquire_free hf hc hb']; exact hAfree i c hf hc hb'
    | none =>
      by_cases hcap : s.size < s.connectionLimit
      · rw [step_startAcquire_new hf hcap]; exact hAnew hf hcap
      · rw [step_startAcquire_wait hf hcap]; exact hAwait hf hcap
  | finishInit t r =>
    cases ht : s.tasks[t]? with
    | none => rw [step_finishInit_stale (by simp [ht])]; exact hid
    | some st =>
      cases st with
      | initNew i =>
        cases hc : s.connections[i]? with
        | none => rw [step_finishInit_noslot ht hc]; exact hid
        | some c =>
          cases r with
          | none => rw [step_finishInit_ok ht hc]; exact hFin t i c (Or.inl ht) hc
          | some e' =>
            rw [step_finishInit_err ht hc]
            exact hFinErr t i c e' (Or.inl ht) hc (Or.inl rfl)
      | repairing i => rw [step_finishInit_stale (by simp [ht])]; exact hid
      | waiting => rw [step_finishInit_stale (by simp [ht])]; exact hid
      | fulfilled i => rw [step_finishInit_stale (by simp [ht])]; exact hid
      | holding i => rw [step_finishInit_stale (by simp [ht])]; exact hid
      | released => rw [step_finishInit_stale (by simp [ht])]; exact hid
      | failed e' => rw [step_finishInit_stale (by simp [ht])]; exact hid
  | finishRepair t r =>
    cases ht : s.tasks[t]? with
    | none => rw [step_finishRepair_stale (by simp [ht])]; exact hid
    | some st =>
      cases st with
      | repairing i =>
        cases hc : s.connections[i]? with
        | none => rw [step_finishRepair_noslot ht hc]; exact hid
        | some c =>
          cases r with
          | none => rw [step_finishRepair_ok ht hc]; exact hFin t i c (Or.inr ht) hc
          | some e' =>
            rw [step_finishRepair_err ht hc]
            exact hFinErr t i c e' (Or.inr ht) hc (Or.inr rfl)
      | initNew i => rw [step_finishRepair_stale (by simp [ht])]; exact hid
      | waiting => rw [step_finishRepair_stale (by simp [ht])]; exact hid
      | fulfilled i => rw [step_finishRepair_stale (by simp [ht])]; exact hid
      | holding i => rw [step_finishRepair_stale (by simp [ht])]; exact hid
      | released => rw [step_finishRepair_stale (by simp [ht])]; exact hid
      | failed e' => rw [step_finishRepair_stale (by simp [ht])]; exact hid
  | resumeWaiter t =>
    cases ht : s.tasks[t]? with
    | none => rw [step_resumeWaiter_stale (by simp [ht])]; exact hid
    | some st =>
      cases st with
      | fulfilled i =>
        cases hc : s.connections[i]? with
        | none => rw [step_resumeWaiter_noslot ht hc]; exact hid
        | some c =>
          by_cases hb : c.broken = true
          · rw [step_resumeWaiter_broken ht hc hb]; exact hWbroken t i c ht hc hb
          · have hb' : c.broken = false := by simpa using hb
            rw [step_resumeWaiter_clean ht hc hb']; exact hWclean t i c ht hc hb'
      | initNew i => rw [step_resumeWaiter_stale (by simp [ht])]; exact hid
      | repairing i => rw [step_resumeWaiter_stale (by simp [ht])]; exact hid
      | waiting => rw [step_resumeWaiter_stale (by simp [ht])]; exact hid
      | holding i => rw [step_resumeWaiter_stale (by simp [ht])]; exact hid
      | released => rw [step_resumeWaiter_stale (by simp [ht])]; exact hid
      | failed e' => rw [step_resumeWaiter_stale (by simp [ht])]; exact hid
  | release t =>
    cases ht : s.tasks[t]? with
    | none => rw [step_release_stale (by simp [ht])]; exact hid
    | some st =>
      cases st with
      | holding i =>
        cases hc : s.connections[i]? with
        | none => rw [step_release_noslot ht hc]; exact hid
        | some c =>
          rw [step_release ht hc]; exact hRel t i c ht hc
      | initNew i => rw [step_release_stale (by simp [ht])]; exact hid
      | repairing i => rw [step_release_stale (by simp [ht])]; exact hid
      | waiting => rw [step_release_stale (by simp [ht])]; exact hid
      | fulfilled i => rw [step_release_stale (by simp [ht])]; exact hid
      | released => rw [step_release_stale (by simp [ht])]; exact hid
      | failed e' => rw [step_release_stale (by simp [ht])]; exact hid
  | misuseRelease i =>
    cases hc : s.connections[i]? with
    | none => rw [step_misuseRelease_none hc]; exact hid
    | some c => rw [step_misuseRelease hc]; exact hMis i c hc rfl
  | linkLost i =>
    cases hc : s.connections[i]? with
    | none => rw [step_linkLost_none hc]; exact hid
    | some c =>
      by_cases ha : c.connAlive = true
      · rw [step_linkLost_alive hc ha]; exact hLost i c hc ha rfl
      · rw [step_linkLost_dead hc (by simpa using ha)]; exact hid
  | emptyQueue =>
    rw [step_emptyQueue]; exact hEmpty

/-! ## Queue/history invariant (claim C2) -/

/-- `enqueueOrder` distributes over append. -/
theorem enqueueOrder_append (l1 l2 : List Ev) :
    enqueueOrder (l1 ++ l2) = enqueueOrder l1 ++ enqueueOrder l2 :=
  List.filterMap_append l1 l2 enqOf

/-- `serviceOrder` distributes over append. -/
theorem serviceOrder_append (l1 l2 : List Ev) :
    serviceOrder (l1 ++ l2) = serviceOrder l1 ++ serviceOrder l2 :=
  List.filterMap_append l1 l2 svcOf

/-- A fulfill-plus-handout pair creates no queue entries. -/
theorem enqueueOrder_fulfill_handout (t i : Nat) :
    enqueueOrder [Ev.fulfill t i, Ev.handout t i] = [] := rfl

/-- A fulfill-plus-handout pair services exactly its task. -/
theorem serviceOrder_fulfill_handout (t i : Nat) :
    serviceOrder [Ev.fulfill t i, Ev.handout t i] = [t] := rfl

/-- A hand-out alone creates no queue entries. -/
theorem enqueueOrder_handout (t i : Nat) : enqueueOrder [Ev.handout t i] = [] := rfl

/-- A hand-out alone services no queue entries. -/
theorem serviceOrder_handout (t i : Nat) : serviceOrder [Ev.handout t i] = [] := rfl

/-- An enqueue creates exactly its entry. -/
theorem enqueueOrder_enq (t : Nat) : enqueueOrder [Ev.enq t] = [t] := rfl

/-- An enqueue services nothing. -/
theorem serviceOrder_enq (t : Nat) : serviceOrder [Ev.enq t] = [] := rfl

/-- A release notification creates no queue entries. -/
theorem enqueueOrder_rel (t i : Nat) : enqueueOrder [Ev.rel t i] = [] := rfl

/-- A release notification by itself services nothing. -/
theorem serviceOrder_rel (t i : Nat) : serviceOrder [Ev.rel t i] = [] := rfl

/-- A link loss creates no queue entries. -/
theorem enqueueOrder_lost (i : Nat) : enqueueOrder [Ev.lost i] = [] := rfl

/-- A link loss by itself services nothing. -/
theorem serviceOrder_lost (i : Nat) : serviceOrder [Ev.lost i] = [] := rfl

/-- Teardown rejections create no queue entries. -/
theorem enqueueOrder_rejects (q : List Nat) :
    enqueueOrder (q.map .reject) = [] := by
  induction q with
  | nil => rfl
  | cons a q ih => simp [enqueueOrder, List.filterMap_cons, enqOf]

/-- Teardown rejections service the whole queue in order. -/
theorem serviceOrder_rejects (q : List Nat) :
    serviceOrder (q.map .reject) = q := by
  induction q with
  | nil => rfl
  | cons a q ih => simp [serviceOrder, List.filterMap_cons, svcOf] at ih ⊢; exact ih

/-- The handler preserves the queue/history invariant. -/
theorem IQ_queueHandler {s : PoolState} (h : IQ s) (i : Nat) :
    IQ (queueHandler s i) := by
  cases hc : s.connections[i]? with
  | none => rw [queueHandler_none hc]; exact h
  | some c =>
    by_cases hb : c.free = false ∧ c.broken = false
    · rw [queueHandler_busy hc hb.1 hb.2]; exact h
    · cases hq : s.queue with
      | nil => rw [queueHandler_empty hc hq]; exact h
      | cons t rest =>
        rw [queueHandler_serve hc hb hq]
        refine ⟨?_, ?_, ?_⟩
        · show serviceOrder (s.log ++ [Ev.fulfill t i, Ev.handout t i]) ++ rest
              = enqueueOrder (s.log ++ [Ev.fulfill t i, Ev.handout t i])
          rw [serviceOrder_append, enqueueOrder_append, serviceOrder_fulfill_handout,
            enqueueOrder_fulfill_handout, List.append_nil, List.append_assoc,
            List.singleton_append, ← hq]
          exact h.svcQueue
        · intro u hu
          replace hu : u ∈ enqueueOrder (s.log ++ [Ev.fulfill t i, Ev.handout t i]) := hu
          rw [enqueueOrder_append, enqueueOrder_fulfill_handout, List.append_nil] at hu
          show u < (s.tasks.set t (.fulfilled i)).length
          rw [List.length_set]
          exact h.enqBound u hu
        · show (enqueueOrder (s.log ++ [Ev.fulfill t i, Ev.handout t i])).Nodup
          rw [enqueueOrder_append, enqueueOrder_fulfill_handout, List.append_nil]
          exact h.enqNodup

/-- `handleExecuteError` preserves the queue/history invariant. -/
theorem IQ_handleExecuteError {s : PoolState} (h : IQ s) (i : Nat) (e : Err) :
    IQ (handleExecuteError s i e) := by
  unfold handleExecuteError
  split
  · split
    · exact h
    · refine IQ_queueHandler ?_ i
      exact ⟨h.svcQueue, h.enqBound, h.enqNodup⟩
  · exact h

/-- One step preserves the queue/history invariant. -/
theorem IQ_step {s : PoolState} (h : IQ s) (e : Event) : IQ (step s e) := by
  refine step_rec s e h ?_ ?_ ?_ ?_ ?_ ?_ ?_ ?_ ?_ ?_ ?_ ?_
  · intro i c _ _ _
    refine ⟨?_, ?_, ?_⟩
    · show serviceOrder (s.log ++ [Ev.handout s.tasks.length i]) ++ s.queue
          = enqueueOrder (s.log ++ [Ev.handout s.tasks.length i])
      rw [serviceOrder_append, enqueueOrder_append, serviceOrder_handout,
        enqueueOrder_handout, List.append_nil, List.append_nil]
      exact h.svcQueue
    · intro u hu
      replace hu : u ∈ enqueueOrder (s.log ++ [Ev.handout s.tasks.length i]) := hu
      rw [enqueueOrder_append, enqueueOrder_handout, List.append_nil] at hu
      show u < (s.tasks ++ [TaskStatus.holding i]).length
      rw [List.length_append]
      exact Nat.lt_succ_of_lt (h.enqBound u hu)
    · show (enqueueOrder (s.log ++ [Ev.handout s.tasks.length i])).Nodup
      rw [enqueueOrder_append, enqueueOrder_handout, List.append_nil]
      exact h.enqNodup
  · intro i c _ _ _
    refine ⟨h.svcQueue, ?_, h.enqNodup⟩
    intro u hu
    show u < (s.tasks ++ [TaskStatus.repairing i]).length
    rw [List.length_append]
    exact Nat.lt_succ_of_lt (h.enqBound u hu)
  · intro _ _
    refine ⟨h.svcQueue, ?_, h.enqNodup⟩
    intro u hu
    show u < (s.tasks ++ [TaskStatus.initNew s.connections.length]).length
    rw [List.length_append]
    exact Nat.lt_succ_of_lt (h.enqBound u hu)
  · intro _ _
    refine ⟨?_, ?_, ?_⟩
    · show serviceOrder (s.log ++ [Ev.enq s.tasks.length]) ++ (s.queue ++ [s.tasks.length])
          = enqueueOrder (s.log ++ [Ev.enq s.tasks.length])
      rw [serviceOrder_append, enqueueOrder_append, serviceOrder_enq, enqueueOrder_enq,
        List.append_nil, ← List.append_assoc]
      rw [h.svcQueue]
    · intro u hu
      replace hu : u ∈ enqueueOrder (s.log ++ [Ev.enq s.tasks.length]) := hu
      rw [enqueueOrder_append, enqueueOrder_enq] at hu
      show u < (s.tasks ++ [TaskStatus.waiting]).length
      rw [List.length_append]
      rcases List.mem_append.mp hu with hu | hu
      · exact Nat.lt_succ_of_lt (h.enqBound u hu)
      · rw [List.mem_singleton.mp hu]
        exact Nat.lt_succ_self _
    · show (enqueueOrder (s.log ++ [Ev.enq s.tasks.length])).Nodup
      rw [enqueueOrder_append, enqueueOrder_enq, List.nodup_append]
      refine ⟨h.enqNodup, by simp, ?_⟩
      intro u hu hu2
      rw [List.mem_singleton.mp hu2] at hu
      exact Nat.lt_irrefl _ (h.enqBound _ hu)
  · intro t i c _ _
    refine ⟨?_, ?_, ?_⟩
    · show serviceOrder (s.log ++ [Ev.handout t i]) ++ s.queue
          = enqueueOrder (s.log ++ [Ev.handout t i])
      rw [serviceOrder_append, enqueueOrder_append, serviceOrder_handout,
        enqueueOrder_handout, List.append_nil, List.append_nil]
      exact h.svcQueue
    · intro u hu
      replace hu : u ∈ enqueueOrder (s.log ++ [Ev.handout t i]) := hu
      rw [enqueueOrder_append, enqueueOrder_handout, List.append_nil] at hu
      show u < (s.tasks.set t (TaskStatus.holding i)).length
      rw [List.length_set]
      exact h.enqBound u hu
    · show (enqueueOrder (s.log ++ [Ev.handout t i])).Nodup
      rw [enqueueOrder_append, enqueueOrder_handout, List.append_nil]
      exact h.enqNodup
  · intro t i c e' _ _ _
    refine IQ_handleExecuteError ?_ i e'
    refine ⟨h.svcQueue, ?_, h.enqNodup⟩
    intro u hu
    show u < (s.tasks.set t (TaskStatus.failed e')).length
    rw [List.length_set]
    exact h.enqBound u hu
  · intro t i c _ _ _
    refine ⟨h.svcQueue, ?_, h.enqNodup⟩
    intro u hu
    show u < (s.tasks.set t (TaskStatus.holding i)).length
    rw [List.length_set]
    exact h.enqBound u hu
  · intro t i c _ _ _
    refine ⟨h.svcQueue, ?_, h.enqNodup⟩
    intro u hu
    show u < (s.tasks.set t (TaskStatus.repairing i)).length
    rw [List.length_set]
    exact h.enqBound u hu
  · intro t i c _ _
    refine IQ_queueHandler ?_ i
    refine ⟨?_, ?_, ?_⟩
    · show serviceOrder (s.log ++ [Ev.rel t i]) ++ s.queue
          = enqueueOrder (s.log ++ [Ev.rel t i])
      rw [serviceOrder_append, enqueueOrder_append, serviceOrder_rel, enqueueOrder_rel,
        List.append_nil, List.append_nil]
      exact h.svcQueue
    · intro u hu
      replace hu : u ∈ enqueueOrder (s.log ++ [Ev.rel t i]) := hu
      rw [enqueueOrder_append, enqueueOrder_rel, List.append_nil] at hu
      show u < (s.tasks.set t TaskStatus.released).length
      rw [List.length_set]
      exact h.enqBound u hu
    · show (enqueueOrder (s.log ++ [Ev.rel t i])).Nodup
      rw [enqueueOrder_append, enqueueOrder_rel, List.append_nil]
      exact h.enqNodup
  · intro i c _ _
    refine IQ_queueHandler ?_ i
    exact ⟨h.svcQueue, h.enqBound, h.enqNodup⟩
  · intro i c _ _ _
    refine IQ_queueHandler ?_ i
    refine ⟨?_, ?_, ?_⟩
    · show serviceOrder (s.log ++ [Ev.lost i]) ++ s.queue
          = enqueueOrder (s.log ++ [Ev.lost i])
      rw [serviceOrder_append, enqueueOrder_append, serviceOrder_lost, enqueueOrder_lost,
        List.append_nil, List.append_nil]
      exact h.svcQueue
    · intro u hu
      replace hu : u ∈ enqueueOrder (s.log ++ [Ev.lost i]) := hu
      rw [enqueueOrder_append, enqueueOrder_lost, List.append_nil] at hu
      exact h.enqBound u hu
    · show (enqueueOrder (s.log ++ [Ev.lost i])).Nodup
      rw [enqueueOrder_append, enqueueOrder_lost, List.append_nil]
      exact h.enqNodup
  · refine ⟨?_, ?_, ?_⟩
    · show serviceOrder (s.log ++ s.queue.map Ev.reject) ++ [] =
          enqueueOrder (s.log ++ s.queue.map Ev.reject)
      rw [serviceOrder_append, enqueueOrder_append, serviceOrder_rejects,
        enqueueOrder_rejects, List.append_nil, List.append_nil]
      exact h.svcQueue
    · intro u hu
      replace hu : u ∈ enqueueOrder (s.log ++ s.queue.map Ev.reject) := hu
      rw [enqueueOrder_append, enqueueOrder_rejects, List.append_nil] at hu
      show u < (s.queue.foldl (fun ts u => ts.set u (.failed teardownError)) s.tasks).length
      rw [foldlSet_length]
      exact h.enqBound u hu
    · show (enqueueOrder (s.log ++ s.queue.map Ev.reject)).Nodup
      rw [enqueueOrder_append, enqueueOrder_rejects, List.append_nil]
      exact h.enqNodup

/-- The queue/history invariant holds along every run. -/
theorem IQ_run {s : PoolState} (h : IQ s) (es : List Event) : IQ (run s es) := by
  induction es generalizing s with
  | nil => exact h
  | cons e es ih => exact ih (IQ_step h e)

/-- The queue/history invariant holds at the initial pool. -/
theorem IQ_initPool (cap : Nat) : IQ (initPool cap) :=
  ⟨rfl, fun t ht => by simp [initPool, enqueueOrder] at ht, List.nodup_nil⟩

/-- If `f` succeeds only where `g` succeeds with the same value, the
`f`-projection of a list is a sublist of its `g`-projection. -/
theorem filterMap_sublist_mono {α β : Type} {f g : α → Option β}
    (h : ∀ (a : α) (b : β), f a = some b → g a = some b) (l : List α) :
    List.Sublist (l.filterMap f) (l.filterMap g) := by
  induction l with
  | nil => exact List.Sublist.refl _
  | cons a l ih =>
    rw [List.filterMap_cons, List.filterMap_cons]
    cases hf : f a with
    | none =>
      cases hg : g a with
      | none => exact ih
      | some b => exact ih.trans (List.sublist_cons_self b _)
    | some b =>
      rw [h a b hf]
      exact List.Sublist.cons₂ b ih

/-- Two distinct members of a list occur in one of the two orders. -/
theorem pair_sublist_total {a b : Nat} {l : List Nat} (ha : a ∈ l) (hb : b ∈ l)
    (hne : a ≠ b) :
    List.Sublist [a, b] l ∨ List.Sublist [b, a] l := by
  induction l with
  | nil => cases ha
  | cons c l ih =>
    rcases List.mem_cons.mp ha with h | ha'
    · subst h
      have hb' : b ∈ l := by
        rcases List.mem_cons.mp hb with h' | h'
        · exact absurd h'.symm hne
        · exact h'
      exact Or.inl (List.Sublist.cons₂ a (List.singleton_sublist.mpr hb'))
    · rcases List.mem_cons.mp hb with h | hb'
      · subst h
        exact Or.inr (List.Sublist.cons₂ b (List.singleton_sublist.mpr ha'))
      · rcases ih ha' hb' with h | h
        · exact Or.inl (List.Sublist.cons c h)
        · exact Or.inr (List.Sublist.cons c h)

/-- In a duplicate-free list, two distinct elements occur in only one
order. -/
theorem pair_sublist_asymm {a b : Nat} {l : List Nat} (hn : l.Nodup)
    (hne : a ≠ b) (h1 : List.Sublist [a, b] l) (h2 : List.Sublist [b, a] l) :
    False := by
  induction l with
  | nil => cases h1
  | cons c l ih =>
    have hcl : c ∉ l := (List.nodup_cons.mp hn).1
    have hl : l.Nodup := (List.nodup_cons.mp hn).2
    cases h1 with
    | cons _ h1' =>
      cases h2 with
      | cons _ h2' => exact ih hl h1' h2'
      | cons₂ _ h2' => exact hcl (h1'.subset (by simp))
    | cons₂ _ h1' =>
      cases h2 with
      | cons _ h2' => exact hcl (h2'.subset (by simp))
      | cons₂ _ h2' => exact hne rfl

/-- The relative order of two fulfilled entries in a sublist of a
duplicate-free list matches their order in the big list. -/
theorem pair_sublist_restrict {S L : List Nat} {a b : Nat}
    (hSL : List.Sublist S L) (hn : L.Nodup) (hab : List.Sublist [a, b] L)
    (ha : a ∈ S) (hb : b ∈ S) : List.Sublist [a, b] S := by
  have hne : a ≠ b := by
    have h2 := hab.nodup hn
    intro h
    subst h
    simp [List.nodup_cons] at h2
  rcases pair_sublist_total ha hb hne with h | h
  · exact h
  · exact (pair_sublist_asymm hn hne hab (h.trans hSL)).elim

/-! ## Claim C2 — FIFO wait-queue service -/

/-- C2: along every interleaving, if caller A's wait-queue entry is
created strictly before caller B's (A precedes B in `enqueueOrder`) and
both entries are eventually fulfilled, then A is fulfilled before B (A
precedes B in `fulfillOrder`); and no entry is ever fulfilled more than
once (`fulfillOrder` is duplicate-free). -/
theorem C2_fifo (cap : Nat) (es : List Event) (tA tB : Nat)
    (henq : List.Sublist [tA, tB] (enqueueOrder (run (initPool cap) es).log))
    (hA : tA ∈ fulfillOrder (run (initPool cap) es).log)
    (hB : tB ∈ fulfillOrder (run (initPool cap) es).log) :
    List.Sublist [tA, tB] (fulfillOrder (run (initPool cap) es).log)
    ∧ (fulfillOrder (run (initPool cap) es).log).Nodup := by
  have hIQ : IQ (run (initPool cap) es) := IQ_run (IQ_initPool cap) es
  have h1 : List.Sublist (fulfillOrder (run (initPool cap) es).log)
      (serviceOrder (run (initPool cap) es).log) := by
    refine filterMap_sublist_mono ?_ _
    intro a b hab
    cases a with
    | fulfill t i => simpa [fulOf, svcOf] using hab
    | enq t => simp [fulOf] at hab
    | reject t => simp [fulOf] at hab
    | handout t i => simp [fulOf] at hab
    | rel t i => simp [fulOf] at hab
    | lost i => simp [fulOf] at hab
  have h2 : List.Sublist (serviceOrder (run (initPool cap) es).log)
      (enqueueOrder (run (initPool cap) es).log) := by
    rw [← hIQ.svcQueue]
    exact List.sublist_append_left _ _
  have hsub := h1.trans h2
  exact ⟨pair_sublist_restrict hsub hIQ.enqNodup henq hA hB,
    hsub.nodup hIQ.enqNodup⟩

/-- Witness for C2 at the concrete capacity-1 interleaving `traceC2`,
where tasks 1 and 2 queue in that order and are fulfilled in that
order. -/
theorem C2_fifo_witness :
    List.Sublist [1, 2] (fulfillOrder (run (initPool 1) traceC2).log)
    ∧ (fulfillOrder (run (initPool 1) traceC2).log).Nodup :=
  C2_fifo 1 traceC2 1 2 (by decide) (by decide) (by decide)

/-! ## Exclusivity invariant (claim C1) -/

/-- Decompose a slot reference after a task update. -/
theorem refL_set_cases {ts : List TaskStatus} {t u j : Nat} {st : TaskStatus}
    (h : refL (ts.set t st) u j = true) :
    (u = t ∧ st.refs j = true) ∨ (u ≠ t ∧ refL ts u j = true) := by
  by_cases hut : u = t
  · subst hut
    refine Or.inl ⟨rfl, ?_⟩
    have hlt : u < ts.length := by
      have := refL_lt h
      simpa [List.length_set] using this
    rwa [refL_set_self st hlt j] at h
  · exact Or.inr ⟨hut, by rwa [refL_set_ne st (fun he => hut he.symm) j] at h⟩

/-- Decompose a slot reference after a task append. -/
theorem refL_append_cases {ts : List TaskStatus} {st : TaskStatus} {u j : Nat}
    (h : refL (ts ++ [st]) u j = true) :
    (u = ts.length ∧ st.refs j = true) ∨ (u < ts.length ∧ refL ts u j = true) := by
  have hlt := refL_lt h
  rw [List.length_append, List.length_singleton] at hlt
  by_cases hu : u = ts.length
  · subst hu
    exact Or.inl ⟨rfl, by rwa [refL_concat_self] at h⟩
  · have hu' : u < ts.length := by omega
    exact Or.inr ⟨hu', by rwa [refL_append_lt hu'] at h⟩

/-- Decompose a slot reference after the teardown fold. -/
theorem refL_foldlSet_cases {q : List Nat} {ts : List TaskStatus} {u j : Nat}
    {v : TaskStatus}
    (h : refL (q.foldl (fun a x => a.set x v) ts) u j = true) :
    (u ∈ q ∧ v.refs j = true) ∨ (u ∉ q ∧ refL ts u j = true) := by
  by_cases hm : u ∈ q
  · refine Or.inl ⟨hm, ?_⟩
    have hlt : u < ts.length := by
      have := refL_lt h
      rwa [foldlSet_length] at this
    unfold refL at h
    rw [foldlSet_mem hm hlt v] at h
    simpa using h
  · refine Or.inr ⟨hm, ?_⟩
    unfold refL at h ⊢
    rwa [foldlSet_not_mem hm] at h

/-- `findIdx?` with an arbitrary start index: a hit satisfies the
predicate. -/
theorem findIdx?_go_some {α : Type} {p : α → Bool} :
    ∀ (l : List α) (st i : Nat), List.findIdx? p l st = some i →
      st ≤ i ∧ ∃ a, l[i - st]? = some a ∧ p a = true := by
  intro l
  induction l with
  | nil => intro st i h; simp [List.findIdx?] at h
  | cons x l ih =>
    intro st i h
    rw [List.findIdx?_cons] at h
    by_cases hp : p x = true
    · rw [if_pos hp] at h
      cases h
      exact ⟨Nat.le_refl _, x, by simp, hp⟩
    · rw [if_neg hp] at h
      obtain ⟨hle, a, ha, hpa⟩ := ih (st + 1) i h
      refine ⟨Nat.le_of_succ_le hle, a, ?_, hpa⟩
      have heq : i - st = (i - (st + 1)) + 1 := by omega
      rw [heq]
      simpa using ha

/-- The slot found by the free-or-broken scan satisfies the predicate. -/
theorem findIdx?_some {α : Type} {p : α → Bool} {l : List α} {i : Nat}
    (h : l.findIdx? p = some i) : ∃ a, l[i]? = some a ∧ p a = true := by
  have h2 := findIdx?_go_some l 0 i h
  simpa using h2.2

/-- Core exclusivity-preservation step: the task that already owns slot
`i` changes its continuation state (still referring to at most slot `i`),
and slot `i` is overwritten with a non-free, non-broken value.  Covers a
successful or failed initialization/repair completion and a waiter's
resumption. -/
theorem Iex_assignTask {s : PoolState} (h : Iex s) {t i : Nat} {c cNew : Slot}
    {stOld stNew : TaskStatus} (l' : List Ev)
    (hc : s.connections[i]? = some c)
    (ht : s.tasks[t]? = some stOld) (hOldRef : stOld.refs i = true)
    (hOldW : stOld ≠ .waiting)
    (hbNew : cNew.broken = false) (hfNew : cNew.free = false)
    (hstNew : ∀ j, stNew.refs j = true → j = i) :
    Iex { s with
      connections := s.connections.set i cNew
      tasks := s.tasks.set t stNew
      log := l' } := by
  have htlen : t < s.tasks.length := getElem?_some_lt ht
  have hilen : i < s.connections.length := getElem?_some_lt hc
  have hrefold : refAt s t i = true := by
    rw [refAt, refL_eq_of_getElem ht]
    exact hOldRef
  have htq : t ∉ s.queue := by
    intro hquu
    have hw := h.qWaiting t hquu
    rw [ht] at hw
    exact hOldW (by injection hw)
  refine ⟨?_, ?_, h.qNodup, ?_, ?_, ?_⟩
  · intro c' hc'
    rcases List.mem_or_eq_of_mem_set hc' with hmem | heq
    · exact h.noBroken c' hmem
    · rw [heq]; exact hbNew
  · intro u hu
    show (s.tasks.set t stNew)[u]? = some .waiting
    rw [List.getElem?_set_ne (fun he => htq (by rw [he]; exact hu))]
    exact h.qWaiting u hu
  · intro u j href
    replace href : refL (s.tasks.set t stNew) u j = true := href
    show j < (s.connections.set i cNew).length
    rw [List.length_set]
    rcases refL_set_cases href with ⟨_, hr⟩ | ⟨_, hr⟩
    · rw [hstNew j hr]
      exact hilen
    · exact h.refBound u j hr
  · intro j c' hc' hfree u
    show refL (s.tasks.set t stNew) u j = false
    by_cases hij : i = j
    · subst hij
      rw [List.getElem?_set_self hilen] at hc'
      cases hc'
      rw [hfNew] at hfree
      exact Bool.noConfusion hfree
    · rw [List.getElem?_set_ne hij] at hc'
      have hold := h.freeClean j c' hc' hfree
      by_cases hut : u = t
      · subst hut
        rw [refL_set_self _ htlen]
        by_cases hrn : stNew.refs j = true
        · exact absurd (hstNew j hrn) (fun he => hij he.symm)
        · simpa using hrn
      · rw [refL_set_ne _ (fun he => hut he.symm)]
        exact hold u
  · intro u1 u2 j h1 h2
    replace h1 : refL (s.tasks.set t stNew) u1 j = true := h1
    replace h2 : refL (s.tasks.set t stNew) u2 j = true := h2
    rcases refL_set_cases h1 with ⟨he1, hr1⟩ | ⟨hne1, hr1⟩ <;>
      rcases refL_set_cases h2 with ⟨he2, hr2⟩ | ⟨hne2, hr2⟩
    · rw [he1, he2]
    · have hji : j = i := hstNew j hr1
      subst hji
      exact ((hne2 (h.uniqRef u2 t j hr2 hrefold)).elim)
    · have hji : j = i := hstNew j hr2
      subst hji
      exact ((hne1 (h.uniqRef u1 t j hr1 hrefold)).elim)
    · exact h.uniqRef u1 u2 j hr1 hr2

/-- Exclusivity preservation for a direct claim of a Free slot by a brand
new caller: the scan found slot `i` Free, so no task refers to it; the
new task is its sole owner. -/
theorem Iex_directClaim {s : PoolState} (h : Iex s) {i : Nat} {c cNew : Slot}
    (l' : List Ev)
    (hc : s.connections[i]? = some c) (hcfree : c.free = true)
    (hbNew : cNew.broken = false) (hfNew : cNew.free = false) :
    Iex { s with
      connections := s.connections.set i cNew
      tasks := s.tasks ++ [.holding i]
      log := l' } := by
  have hilen : i < s.connections.length := getElem?_some_lt hc
  have hnoref : ∀ u, refL s.tasks u i = false := h.freeClean i c hc hcfree
  refine ⟨?_, ?_, h.qNodup, ?_, ?_, ?_⟩
  · intro c' hc'
    rcases List.mem_or_eq_of_mem_set hc' with hmem | heq
    · exact h.noBroken c' hmem
    · rw [heq]; exact hbNew
  · intro u hu
    have hw := h.qWaiting u hu
    show (s.tasks ++ [TaskStatus.holding i])[u]? = some .waiting
    rw [List.getElem?_append_left (getElem?_some_lt hw)]
    exact hw
  · intro u j href
    replace href : refL (s.tasks ++ [TaskStatus.holding i]) u j = true := href
    show j < (s.connections.set i cNew).length
    rw [List.length_set]
    rcases refL_append_cases href with ⟨_, hr⟩ | ⟨_, hr⟩
    · have : i = j := by simpa [TaskStatus.refs] using hr
      omega
    · exact h.refBound u j hr
  · intro j c' hc' hfree u
    show refL (s.tasks ++ [TaskStatus.holding i]) u j = false
    by_cases hij : i = j
    · subst hij
      rw [List.getElem?_set_self hilen] at hc'
      cases hc'
      rw [hfNew] at hfree
      exact Bool.noConfusion hfree
    · rw [List.getElem?_set_ne hij] at hc'
      have hold := h.freeClean j c' hc' hfree
      by_cases hu : u < s.tasks.length
      · rw [refL_append_lt hu]; exact hold u
      · by_cases hu2 : u = s.tasks.length
        · subst hu2
          rw [refL_concat_self]
          simp only [TaskStatus.refs, beq_eq_false_iff_ne]
          exact hij
        · exact refL_of_le (by rw [List.length_append, List.length_singleton]; omega) j
  · intro u1 u2 j h1 h2
    replace h1 : refL (s.tasks ++ [TaskStatus.holding i]) u1 j = true := h1
    replace h2 : refL (s.tasks ++ [TaskStatus.holding i]) u2 j = true := h2
    rcases refL_append_cases h1 with ⟨he1, hr1⟩ | ⟨hl1, hr1⟩ <;>
      rcases refL_append_cases h2 with ⟨he2, hr2⟩ | ⟨hl2, hr2⟩
    · rw [he1, he2]
    · have hji : i = j := by simpa [TaskStatus.refs] using hr1
      rw [← hji] at hr2
      rw [hnoref u2] at hr2
      exact Bool.noConfusion hr2
    · have hji : i = j := by simpa [TaskStatus.refs] using hr2
      rw [← hji] at hr1
      rw [hnoref u1] at hr1
      exact Bool.noConfusion hr1
    · exact h.uniqRef u1 u2 j hr1 hr2

/-- Exclusivity preservation for slot creation: the fresh slot is at a
fresh index, referenced only by the fresh task. -/
theorem Iex_newSlot {s : PoolState} (h : Iex s) (l' : List Ev) :
    Iex { s with
      size := s.size + 1
      connections := s.connections ++ [⟨false, false, s.connections.length, false⟩]
      tasks := s.tasks ++ [.initNew s.connections.length]
      log := l' } := by
  refine ⟨?_, ?_, h.qNodup, ?_, ?_, ?_⟩
  · intro c' hc'
    rcases List.mem_append.mp hc' with hmem | hmem
    · exact h.noBroken c' hmem
    · rw [List.mem_singleton.mp hmem]
  · intro u hu
    have hw := h.qWaiting u hu
    show (s.tasks ++ [TaskStatus.initNew s.connections.length])[u]? = some .waiting
    rw [List.getElem?_append_left (getElem?_some_lt hw)]
    exact hw
  · intro u j href
    replace href :
        refL (s.tasks ++ [TaskStatus.initNew s.connections.length]) u j = true := href
    show j < (s.connections ++ [(⟨false, false, s.connections.length, false⟩ : Slot)]).length
    rw [List.length_append, List.length_singleton]
    rcases refL_append_cases href with ⟨_, hr⟩ | ⟨_, hr⟩
    · have : s.connections.length = j := by simpa [TaskStatus.refs] using hr
      omega
    · have := h.refBound u j hr
      omega
  · intro j c' hc' hfree u
    show refL (s.tasks ++ [TaskStatus.initNew s.connections.length]) u j = false
    by_cases hj : j < s.connections.length
    · rw [List.getElem?_append_left hj] at hc'
      have hold := h.freeClean j c' hc' hfree
      by_cases hu : u < s.tasks.length
      · rw [refL_append_lt hu]; exact hold u
      · by_cases hu2 : u = s.tasks.length
        · subst hu2
          rw [refL_concat_self]
          simp only [TaskStatus.refs, beq_eq_false_iff_ne]
          omega
        · exact refL_of_le (by rw [List.length_append, List.length_singleton]; omega) j
    · have hlt := getElem?_some_lt hc'
      rw [List.length_append, List.length_singleton] at hlt
      have hj2 : j = s.connections.length := by omega
      subst hj2
      rw [List.getElem?_concat_length] at hc'
      cases hc'
      exact Bool.noConfusion hfree
  · intro u1 u2 j h1 h2
    replace h1 :
        refL (s.tasks ++ [TaskStatus.initNew s.connections.length]) u1 j = true := h1
    replace h2 :
        refL (s.tasks ++ [TaskStatus.initNew s.connections.length]) u2 j = true := h2
    rcases refL_append_cases h1 with ⟨he1, hr1⟩ | ⟨hl1, hr1⟩ <;>
      rcases refL_append_cases h2 with ⟨he2, hr2⟩ | ⟨hl2, hr2⟩
    · rw [he1, he2]
    · have hj : s.connections.length = j := by simpa [TaskStatus.refs] using hr1
      have := h.refBound u2 j hr2
      omega
    · have hj : s.connections.length = j := by simpa [TaskStatus.refs] using hr2
      have := h.refBound u1 j hr1
      omega
    · exact h.uniqRef u1 u2 j hr1 hr2

/-- Exclusivity preservation for enqueuing a new waiter. -/
theorem Iex_enqueue {s : PoolState} (h : Iex s) (l' : List Ev) :
    Iex { s with
      queue := s.queue ++ [s.tasks.length]
      tasks := s.tasks ++ [.waiting]
      log := l' } := by
  refine ⟨h.noBroken, ?_, ?_, ?_, ?_, ?_⟩
  · intro u hu
    rcases List.mem_append.mp hu with hq | hq
    · have hw := h.qWaiting u hq
      show (s.tasks ++ [TaskStatus.waiting])[u]? = some .waiting
      rw [List.getElem?_append_left (getElem?_some_lt hw)]
      exact hw
    · rw [List.mem_singleton.mp hq]
      show (s.tasks ++ [TaskStatus.waiting])[s.tasks.length]? = some .waiting
      rw [List.getElem?_concat_length]
  · rw [List.nodup_append]
    refine ⟨h.qNodup, by simp, ?_⟩
    intro u hu hu2
    rw [List.mem_singleton.mp hu2] at hu
    exact Nat.lt_irrefl _ (getElem?_some_lt (h.qWaiting _ hu))
  · intro u j href
    replace href : refL (s.tasks ++ [TaskStatus.waiting]) u j = true := href
    rcases refL_append_cases href with ⟨_, hr⟩ | ⟨_, hr⟩
    · simp [TaskStatus.refs] at hr
    · exact h.refBound u j hr
  · intro j c' hc' hfree u
    show refL (s.tasks ++ [TaskStatus.waiting]) u j = false
    have hold := h.freeClean j c' hc' hfree
    by_cases hu : u < s.tasks.length
    · rw [refL_append_lt hu]; exact hold u
    · by_cases hu2 : u = s.tasks.length
      · subst hu2
        rw [refL_concat_self]
        simp [TaskStatus.refs]
      · exact refL_of_le (by rw [List.length_append, List.length_singleton]; omega) j
  · intro u1 u2 j h1 h2
    replace h1 : refL (s.tasks ++ [TaskStatus.waiting]) u1 j = true := h1
    replace h2 : refL (s.tasks ++ [TaskStatus.waiting]) u2 j = true := h2
    rcases refL_append_cases h1 with ⟨_, hr1⟩ | ⟨_, hr1⟩
    · simp [TaskStatus.refs] at hr1
    rcases refL_append_cases h2 with ⟨_, hr2⟩ | ⟨_, hr2⟩
    · simp [TaskStatus.refs] at hr2
    exact h.uniqRef u1 u2 j hr1 hr2

/-- Exclusivity preservation for a holder's `release()`, including the
synchronous notification handler: either the queue is empty and the slot
ends up Free and unreferenced, or the head waiter is fulfilled with the
slot and becomes its sole owner. -/
theorem Iex_release {s : PoolState} (h : Iex s) {t i : Nat} {c : Slot}
    (ht : s.tasks[t]? = some (.holding i)) (hc : s.connections[i]? = some c) :
    Iex (queueHandler { s with
      connections := s.connections.set i { c with free := true }
      tasks := s.tasks.set t .released
      log := s.log ++ [.rel t i] } i) := by
  have htlen : t < s.tasks.length := getElem?_some_lt ht
  have hilen : i < s.connections.length := getElem?_some_lt hc
  have hrefold : refAt s t i = true := by
    rw [refAt, refL_eq_of_getElem ht]
    simp [TaskStatus.refs]
  have htq : t ∉ s.queue := by
    intro hquu
    have hw := h.qWaiting t hquu
    rw [ht] at hw
    simp at hw
  cases hq : s.queue with
  | nil =>
    rw [queueHandler_empty (show ({ s with
        queue := []
        connections := s.connections.set i { c with free := true }
        tasks := s.tasks.set t .released
        log := s.log ++ [.rel t i] } : PoolState).connections[i]? =
        some { c with free := true } from List.getElem?_set_self hilen) rfl]
    refine ⟨?_, ?_, List.nodup_nil, ?_, ?_, ?_⟩
    · intro c' hc'
      rcases List.mem_or_eq_of_mem_set hc' with hmem | heq
      · exact h.noBroken c' hmem
      · rw [heq]
        exact h.noBroken c (List.getElem?_mem hc)
    · intro u hu
      simp at hu
    · intro u j href
      replace href : refL (s.tasks.set t TaskStatus.released) u j = true := href
      show j < (s.connections.set i { c with free := true }).length
      rw [List.length_set]
      rcases refL_set_cases href with ⟨_, hr⟩ | ⟨_, hr⟩
      · simp [TaskStatus.refs] at hr
      · exact h.refBound u j hr
    · intro j c' hc' hfree u
      show refL (s.tasks.set t TaskStatus.released) u j = false
      by_cases hut : u = t
      · subst hut
        rw [refL_set_self _ htlen]
        simp [TaskStatus.refs]
      · rw [refL_set_ne _ (fun he => hut he.symm)]
        by_cases hij : i = j
        · subst hij
          by_cases hru : refL s.tasks u i = true
          · exact absurd (h.uniqRef u t i hru hrefold) hut
          · simpa using hru
        · rw [List.getElem?_set_ne hij] at hc'
          exact h.freeClean j c' hc' hfree u
    · intro u1 u2 j h1 h2
      replace h1 : refL (s.tasks.set t TaskStatus.released) u1 j = true := h1
      replace h2 : refL (s.tasks.set t TaskStatus.released) u2 j = true := h2
      rcases refL_set_cases h1 with ⟨_, hr1⟩ | ⟨_, hr1⟩
      · simp [TaskStatus.refs] at hr1
      rcases refL_set_cases h2 with ⟨_, hr2⟩ | ⟨_, hr2⟩
      · simp [TaskStatus.refs] at hr2
      exact h.uniqRef u1 u2 j hr1 hr2
  | cons t' rest =>
    have ht' : t' ∈ s.queue := by
      rw [hq]
      exact List.mem_cons_self t' rest
    have hwt' : s.tasks[t']? = some .waiting := h.qWaiting t' ht'
    have ht'len : t' < s.tasks.length := getElem?_some_lt hwt'
    have ht't : t' ≠ t := by
      intro he
      rw [he, ht] at hwt'
      simp at hwt'
    have hrest : rest.Nodup ∧ t' ∉ rest := by
      have hn := h.qNodup
      rw [hq, List.nodup_cons] at hn
      exact ⟨hn.2, hn.1⟩
    rw [queueHandler_serve (show ({ s with
        queue := t' :: rest
        connections := s.connections.set i { c with free := true }
        tasks := s.tasks.set t .released
        log := s.log ++ [.rel t i] } : PoolState).connections[i]? =
        some { c with free := true } from List.getElem?_set_self hilen) (by simp) rfl]
    refine ⟨?_, ?_, hrest.1, ?_, ?_, ?_⟩
    · intro c' hc'
      rcases List.mem_or_eq_of_mem_set hc' with hmem | heq
      · rcases List.mem_or_eq_of_mem_set hmem with hmem2 | heq2
        · exact h.noBroken c' hmem2
        · rw [heq2]
          exact h.noBroken c (List.getElem?_mem hc)
      · rw [heq]
        exact h.noBroken c (List.getElem?_mem hc)
    · intro u hu
      replace hu : u ∈ rest := hu
      have hu' : u ∈ s.queue := by
        rw [hq]
        exact List.mem_cons_of_mem _ hu
      have hut' : u ≠ t' := fun he => hrest.2 (he ▸ hu)
      have hut : u ≠ t := fun he => htq (he ▸ hu')
      show ((s.tasks.set t TaskStatus.released).set t'
          (TaskStatus.fulfilled i))[u]? = some .waiting
      rw [List.getElem?_set_ne (fun he => hut' he.symm),
        List.getElem?_set_ne (fun he => hut he.symm)]
      exact h.qWaiting u hu'
    · intro u j href
      replace href : refL ((s.tasks.set t TaskStatus.released).set t'
          (TaskStatus.fulfilled i)) u j = true := href
      simp only [List.length_set]
      rcases refL_set_cases href with ⟨_, hr⟩ | ⟨_, hr⟩
      · have hji : i = j := by simpa [TaskStatus.refs] using hr
        omega
      · rcases refL_set_cases hr with ⟨_, hr2⟩ | ⟨_, hr2⟩
        · simp [TaskStatus.refs] at hr2
        · exact h.refBound u j hr2
    · intro j c' hc' hfree u
      show refL ((s.tasks.set t TaskStatus.released).set t'
          (TaskStatus.fulfilled i)) u j = false
      by_cases hij : i = j
      · subst hij
        rw [List.getElem?_set_self (by simp [List.length_set, hilen])] at hc'
        cases hc'
        exact Bool.noConfusion hfree
      · rw [List.getElem?_set_ne hij, List.getElem?_set_ne hij] at hc'
        have hold := h.freeClean j c' hc' hfree
        by_cases hut' : u = t'
        · subst hut'
          rw [refL_set_self _ (by simp [List.length_set, ht'len])]
          simp only [TaskStatus.refs, beq_eq_false_iff_ne]
          exact hij
        · rw [refL_set_ne _ (fun he => hut' he.symm)]
          by_cases hut : u = t
          · subst hut
            rw [refL_set_self _ htlen]
            simp [TaskStatus.refs]
          · rw [refL_set_ne _ (fun he => hut he.symm)]
            exact hold u
    · intro u1 u2 j h1 h2
      replace h1 : refL ((s.tasks.set t TaskStatus.released).set t'
          (TaskStatus.fulfilled i)) u1 j = true := h1
      replace h2 : refL ((s.tasks.set t TaskStatus.released).set t'
          (TaskStatus.fulfilled i)) u2 j = true := h2
      rcases refL_set_cases h1 with ⟨he1, hr1⟩ | ⟨hne1, hr1⟩ <;>
        rcases refL_set_cases h2 with ⟨he2, hr2⟩ | ⟨hne2, hr2⟩
      · rw [he1, he2]
      · have hji : i = j := by simpa [TaskStatus.refs] using hr1
        subst hji
        rcases refL_set_cases hr2 with ⟨_, hx⟩ | ⟨hne2t, hx⟩
        · simp [TaskStatus.refs] at hx
        · exact ((hne2t (h.uniqRef u2 t i hx hrefold)).elim)
      · have hji : i = j := by simpa [TaskStatus.refs] using hr2
        subst hji
        rcases refL_set_cases hr1 with ⟨_, hx⟩ | ⟨hne1t, hx⟩
        · simp [TaskStatus.refs] at hx
        · exact ((hne1t (h.uniqRef u1 t i hx hrefold)).elim)
      · rcases refL_set_cases hr1 with ⟨_, hx1⟩ | ⟨_, hx1⟩
        · simp [TaskStatus.refs] at hx1
        rcases refL_set_cases hr2 with ⟨_, hx2⟩ | ⟨_, hx2⟩
        · simp [TaskStatus.refs] at hx2
        exact h.uniqRef u1 u2 j hx1 hx2

/-- Exclusivity preservation for teardown: all waiters fail; no waiter
referenced a slot, so slot ownership is untouched. -/
theorem Iex_empty {s : PoolState} (h : Iex s) :
    Iex { s with
      queue := []
      tasks := s.queue.foldl (fun ts u => ts.set u (.failed teardownError)) s.tasks
      log := s.log ++ s.queue.map .reject } := by
  refine ⟨h.noBroken, ?_, List.nodup_nil, ?_, ?_, ?_⟩
  · intro u hu
    simp at hu
  · intro u j href
    replace href : refL (s.queue.foldl
        (fun ts u => ts.set u (TaskStatus.failed teardownError)) s.tasks) u j = true := href
    rcases refL_foldlSet_cases href with ⟨_, hr⟩ | ⟨_, hr⟩
    · simp [TaskStatus.refs] at hr
    · exact h.refBound u j hr
  · intro j c' hc' hfree u
    show refL (s.queue.foldl
        (fun ts u => ts.set u (TaskStatus.failed teardownError)) s.tasks) u j = false
    have hold := h.freeClean j c' hc' hfree
    by_cases hm : u ∈ s.queue
    · have hlt : u < s.tasks.length := getElem?_some_lt (h.qWaiting u hm)
      unfold refL
      rw [foldlSet_mem hm hlt]
      simp [TaskStatus.refs]
    · unfold refL
      rw [foldlSet_not_mem hm]
      exact hold u
  · intro u1 u2 j h1 h2
    replace h1 : refL (s.queue.foldl
        (fun ts u => ts.set u (TaskStatus.failed teardownError)) s.tasks) u1 j = true := h1
    replace h2 : refL (s.queue.foldl
        (fun ts u => ts.set u (TaskStatus.failed teardownError)) s.tasks) u2 j = true := h2
    rcases refL_foldlSet_cases h1 with ⟨_, hr1⟩ | ⟨_, hr1⟩
    · simp [TaskStatus.refs] at hr1
    rcases refL_foldlSet_cases h2 with ⟨_, hr2⟩ | ⟨_, hr2⟩
    · simp [TaskStatus.refs] at hr2
    exact h.uniqRef u1 u2 j hr1 hr2

/-- One break-free step preserves the exclusivity invariant. -/
theorem Iex_step {s : PoolState} (h : Iex s) {e : Event}
    (hbf : breakFree e = true) : Iex (step s e) := by
  refine step_rec s e h ?_ ?_ ?_ ?_ ?_ ?_ ?_ ?_ ?_ ?_ ?_ ?_
  · intro i c hfind hc hbno
    have hcfree : c.free = true := by
      obtain ⟨a, ha, hpa⟩ := findIdx?_some hfind
      rw [hc] at ha
      cases ha
      simpa [hbno] using hpa
    refine Iex_directClaim h _ hc hcfree ?_ ?_
    · exact hbno
    · rfl
  · intro i c hfind hc hb
    have hb2 := h.noBroken c (List.getElem?_mem hc)
    rw [hb2] at hb
    exact Bool.noConfusion hb
  · intro hfind hcap
    exact Iex_newSlot h _
  · intro hfind hcap
    exact Iex_enqueue h _
  · intro t i c hor hc
    have hbno : c.broken = false := h.noBroken c (List.getElem?_mem hc)
    rcases hor with ht | ht
    · have hcfree : c.free = false := by
        by_contra hnf
        have hf : c.free = true := by simpa using hnf
        have hcl := h.freeClean i c hc hf t
        rw [refAt, refL_eq_of_getElem ht] at hcl
        simp [TaskStatus.refs] at hcl
      refine Iex_assignTask h _ hc ht ?_ ?_ ?_ ?_ ?_
      · simp [TaskStatus.refs]
      · simp
      · exact hbno
      · exact hcfree
      · intro j hr
        have hij : i = j := by simpa [TaskStatus.refs] using hr
        exact hij.symm
    · have hcfree : c.free = false := by
        by_contra hnf
        have hf : c.free = true := by simpa using hnf
        have hcl := h.freeClean i c hc hf t
        rw [refAt, refL_eq_of_getElem ht] at hcl
        simp [TaskStatus.refs] at hcl
      refine Iex_assignTask h _ hc ht ?_ ?_ ?_ ?_ ?_
      · simp [TaskStatus.refs]
      · simp
      · exact hbno
      · exact hcfree
      · intro j hr
        have hij : i = j := by simpa [TaskStatus.refs] using hr
        exact hij.symm
  · intro t i c e' hor hc heqor
    have hce : isConnectionError e' = false := by
      rcases heqor with heq | heq <;>
        · subst heq
          simpa [breakFree] using hbf
    rw [handleExecuteError_other hce]
    have hbno : c.broken = false := h.noBroken c (List.getElem?_mem hc)
    rcases hor with ht | ht
    · have hcfree : c.free = false := by
        by_contra hnf
        have hf : c.free = true := by simpa using hnf
        have hcl := h.freeClean i c hc hf t
        rw [refAt, refL_eq_of_getElem ht] at hcl
        simp [TaskStatus.refs] at hcl
      refine Iex_assignTask h _ hc ht ?_ ?_ ?_ ?_ ?_
      · simp [TaskStatus.refs]
      · simp
      · exact hbno
      · exact hcfree
      · intro j hr
        simp [TaskStatus.refs] at hr
    · have hcfree : c.free = false := by
        by_contra hnf
        have hf : c.free = true := by simpa using hnf
        have hcl := h.freeClean i c hc hf t
        rw [refAt, refL_eq_of_getElem ht] at hcl
        simp [TaskStatus.refs] at hcl
      refine Iex_assignTask h _ hc ht ?_ ?_ ?_ ?_ ?_
      · simp [TaskStatus.refs]
      · simp
      · exact hbno
      · exact hcfree
      · intro j hr
        simp [TaskStatus.refs] at hr
  · intro t i c ht hc hbno2
    refine Iex_assignTask h _ hc ht ?_ ?_ ?_ ?_ ?_
    · simp [TaskStatus.refs]
    · simp
    · exact hbno2
    · rfl
    · intro j hr
      have hij : i = j := by simpa [TaskStatus.refs] using hr
      exact hij.symm
  · intro t i c ht hc hb
    have hb2 := h.noBroken c (List.getElem?_mem hc)
    rw [hb2] at hb
    exact Bool.noConfusion hb
  · intro t i c ht hc
    exact Iex_release h ht hc
  · intro i c hc heq
    subst heq
    simp [breakFree] at hbf
  · intro i c hc ha heq
    subst heq
    simp [breakFree] at hbf
  · exact Iex_empty h

/-- The exclusivity invariant holds along every break-free run. -/
theorem Iex_run {s : PoolState} (h : Iex s) {es : List Event}
    (hbf : es.all breakFree = true) : Iex (run s es) := by
  induction es generalizing s with
  | nil => exact h
  | cons e es ih =>
    rw [List.all_cons, Bool.and_eq_true] at hbf
    exact ih (Iex_step h hbf.1) hbf.2

/-- The exclusivity invariant holds at the initial pool. -/
theorem Iex_initPool (cap : Nat) : Iex (initPool cap) := by
  refine ⟨?_, ?_, List.nodup_nil, ?_, ?_, ?_⟩
  · intro c hc
    simp [initPool] at hc
  · intro u hu
    simp [initPool] at hu
  · intro u j hr
    have hfalse : refAt (initPool cap) u j = false := by
      simp [refAt, refL, initPool]
    rw [hfalse] at hr
    exact Bool.noConfusion hr
  · intro j c' hc' hfree u
    simp [initPool] at hc'
  · intro u1 u2 j h1 h2
    have hfalse : refAt (initPool cap) u1 j = false := by
      simp [refAt, refL, initPool]
    rw [hfalse] at h1
    exact Bool.noConfusion h1

/-- A task that holds a slot (fulfilled or returned) refers to it. -/
theorem holdsSlot_refAt {s : PoolState} {t i : Nat}
    (h : holdsSlot s t i = true) : refAt s t i = true := by
  unfold holdsSlot at h
  rw [refAt]
  cases hts : s.tasks[t]? with
  | none =>
    rw [hts] at h
    exact Bool.noConfusion h
  | some st =>
    rw [hts] at h
    rw [refL_eq_of_getElem hts]
    cases st <;> simp_all [TaskStatus.refs]

/-- C1 (amended): in every interleaving in which no link is ever lost, no
initialization/repair/command fails at the connection level (so no slot
is ever Broken), and `release()` is invoked only by current holders, no
two callers ever hold the same slot concurrently — whether held by
wait-queue fulfillment or by a returned `getConnection`.  (As stated the
claim is false: `C1_counterexample` exhibits a Broken slot fulfilled to a
waiter and then handed to a second caller, because `queueHandler` leaves
the `broken` flag set on the slot it hands out.) -/
theorem C1_exclusive_break_free (cap : Nat) (es : List Event)
    (hbf : es.all breakFree = true) (t1 t2 i : Nat)
    (h1 : holdsSlot (run (initPool cap) es) t1 i = true)
    (h2 : holdsSlot (run (initPool cap) es) t2 i = true) :
    t1 = t2 := by
  have hIex : Iex (run (initPool cap) es) := Iex_run (Iex_initPool cap) hbf
  exact hIex.uniqRef t1 t2 i (holdsSlot_refAt h1) (holdsSlot_refAt h2)

/-- Witness for the amended C1 at a concrete break-free interleaving. -/
theorem C1_exclusive_break_free_witness :
    ([Event.startAcquire, Event.finishInit 0 none, Event.startAcquire,
      Event.finishInit 1 none] : List Event).all breakFree = true
    ∧ (1 : Nat) = 1 :=
  ⟨by decide,
   C1_exclusive_break_free 2
     [.startAcquire, .finishInit 0 none, .startAcquire, .finishInit 1 none]
     (by decide) 1 1 1 (by decide) (by decide)⟩

/-! ## Queue-only-when-saturated invariant (claim C4) -/

/-- One break-free step (stale releases allowed) preserves `INoFree`. -/
theorem INoFree_step {s : PoolState} (h : INoFree s) {e : Event}
    (hbf : noBreakEv e = true) : INoFree (step s e) := by
  refine step_rec s e h ?_ ?_ ?_ ?_ ?_ ?_ ?_ ?_ ?_ ?_ ?_ ?_
  · intro i c hfind hc hbno
    have hcfree : c.free = true := by
      obtain ⟨a, ha, hpa⟩ := findIdx?_some hfind
      rw [hc] at ha
      cases ha
      simpa [hbno] using hpa
    refine ⟨?_, ?_⟩
    · intro c' hc'
      rcases List.mem_or_eq_of_mem_set hc' with hmem | heq
      · exact h.noBroken c' hmem
      · rw [heq]; exact hbno
    · intro hne c' hc'
      have hfr := h.queueBusy hne c (List.getElem?_mem hc)
      rw [hcfree] at hfr
      exact Bool.noConfusion hfr
  · intro i c hfind hc hb
    have hb2 := h.noBroken c (List.getElem?_mem hc)
    rw [hb2] at hb
    exact Bool.noConfusion hb
  · intro hfind hcap
    refine ⟨?_, ?_⟩
    · intro c' hc'
      rcases List.mem_append.mp hc' with hmem | hmem
      · exact h.noBroken c' hmem
      · rw [List.mem_singleton.mp hmem]
    · intro hne c' hc'
      rcases List.mem_append.mp hc' with hmem | hmem
      · exact h.queueBusy hne c' hmem
      · rw [List.mem_singleton.mp hmem]
  · intro hfind hcap
    refine ⟨h.noBroken, ?_⟩
    intro hne c' hc'
    have hff := List.findIdx?_eq_none_iff.mp hfind c' hc'
    exact (by simpa using hff : c'.free = false ∧ c'.broken = false).1
  · intro t i c hor hc
    refine ⟨?_, ?_⟩
    · intro c' hc'
      rcases List.mem_or_eq_of_mem_set hc' with hmem | heq
      · exact h.noBroken c' hmem
      · rw [heq]; exact h.noBroken c (List.getElem?_mem hc)
    · intro hne c' hc'
      rcases List.mem_or_eq_of_mem_set hc' with hmem | heq
      · exact h.queueBusy hne c' hmem
      · rw [heq]; exact h.queueBusy hne c (List.getElem?_mem hc)
  · intro t i c e' hor hc heqor
    have hce : isConnectionError e' = false := by
      rcases heqor with heq | heq <;>
        · subst heq
          simpa [noBreakEv] using hbf
    rw [handleExecuteError_other hce]
    refine ⟨?_, ?_⟩
    · intro c' hc'
      rcases List.mem_or_eq_of_mem_set hc' with hmem | heq
      · exact h.noBroken c' hmem
      · rw [heq]; exact h.noBroken c (List.getElem?_mem hc)
    · intro hne c' hc'
      rcases List.mem_or_eq_of_mem_set hc' with hmem | heq
      · exact h.queueBusy hne c' hmem
      · rw [heq]; exact h.queueBusy hne c (List.getElem?_mem hc)
  · intro t i c ht hc hbno
    refine ⟨?_, ?_⟩
    · intro c' hc'
      rcases List.mem_or_eq_of_mem_set hc' with hmem | heq
      · exact h.noBroken c' hmem
      · rw [heq]; exact hbno
    · intro hne c' hc'
      rcases List.mem_or_eq_of_mem_set hc' with hmem | heq
      · exact h.queueBusy hne c' hmem
      · rw [heq]
  · intro t i c ht hc hb
    have hb2 := h.noBroken c (List.getElem?_mem hc)
    rw [hb2] at hb
    exact Bool.noConfusion hb
  · intro t i c ht hc
    have hilen : i < s.connections.length := getElem?_some_lt hc
    cases hq : s.queue with
    | nil =>
      rw [queueHandler_empty (show ({ s with
          queue := []
          connections := s.connections.set i { c with free := true }
          tasks := s.tasks.set t .released
          log := s.log ++ [.rel t i] } : PoolState).connections[i]? =
          some { c with free := true } from List.getElem?_set_self hilen) rfl]
      refine ⟨?_, ?_⟩
      · intro c' hc'
        rcases List.mem_or_eq_of_mem_set hc' with hmem | heq
        · exact h.noBroken c' hmem
        · rw [heq]; exact h.noBroken c (List.getElem?_mem hc)
      · intro hne
        exact absurd rfl hne
    | cons t' rest =>
      rw [queueHandler_serve (show ({ s with
          queue := t' :: rest
          connections := s.connections.set i { c with free := true }
          tasks := s.tasks.set t .released
          log := s.log ++ [.rel t i] } : PoolState).connections[i]? =
          some { c with free := true } from List.getElem?_set_self hilen) (by simp) rfl]
      refine ⟨?_, ?_⟩
      · intro c' hc'
        rcases List.mem_or_eq_of_mem_set hc' with hmem | heq
        · rcases List.mem_or_eq_of_mem_set hmem with hmem2 | heq2
          · exact h.noBroken c' hmem2
          · rw [heq2]; exact h.noBroken c (List.getElem?_mem hc)
        · rw [heq]; exact h.noBroken c (List.getElem?_mem hc)
      · intro hne2 c' hc'
        obtain ⟨k, hk⟩ := List.mem_iff_getElem?.mp hc'
        by_cases hki : i = k
        · subst hki
          rw [List.getElem?_set_self (by simp [List.length_set, hilen])] at hk
          cases hk
          rfl
        · rw [List.getElem?_set_ne hki, List.getElem?_set_ne hki] at hk
          exact h.queueBusy (by rw [hq]; simp) c' (List.getElem?_mem hk)
  · intro i c hc heq
    have hilen : i < s.connections.length := getElem?_some_lt hc
    cases hq : s.queue with
    | nil =>
      rw [queueHandler_empty (show ({ s with
          queue := []
          connections := s.connections.set i { c with free := true } } : PoolState).connections[i]? =
          some { c with free := true } from List.getElem?_set_self hilen) rfl]
      refine ⟨?_, ?_⟩
      · intro c' hc'
        rcases List.mem_or_eq_of_mem_set hc' with hmem | heq2
        · exact h.noBroken c' hmem
        · rw [heq2]; exact h.noBroken c (List.getElem?_mem hc)
      · intro hne
        exact absurd rfl hne
    | cons t' rest =>
      rw [queueHandler_serve (show ({ s with
          queue := t' :: rest
          connections := s.connections.set i { c with free := true } } : PoolState).connections[i]? =
          some { c with free := true } from List.getElem?_set_self hilen) (by simp) rfl]
      refine ⟨?_, ?_⟩
      · intro c' hc'
        rcases List.mem_or_eq_of_mem_set hc' with hmem | heq2
        · rcases List.mem_or_eq_of_mem_set hmem with hmem2 | heq3
          · exact h.noBroken c' hmem2
          · rw [heq3]; exact h.noBroken c (List.getElem?_mem hc)
        · rw [heq2]; exact h.noBroken c (List.getElem?_mem hc)
      · intro hne2 c' hc'
        obtain ⟨k, hk⟩ := List.mem_iff_getElem?.mp hc'
        by_cases hki : i = k
        · subst hki
          rw [List.getElem?_set_self (by simp [List.length_set, hilen])] at hk
          cases hk
          rfl
        · rw [List.getElem?_set_ne hki, List.getElem?_set_ne hki] at hk
          exact h.queueBusy (by rw [hq]; simp) c' (List.getElem?_mem hk)
  · intro i c hc ha heq
    subst heq
    simp [noBreakEv] at hbf
  · refine ⟨h.noBroken, ?_⟩
    intro hne
    exact absurd rfl hne

/-- `INoFree` holds along every break-free run. -/
theorem INoFree_run {s : PoolState} (h : INoFree s) {es : List Event}
    (hbf : es.all noBreakEv = true) : INoFree (run s es) := by
  induction es generalizing s with
  | nil => exact h
  | cons e es ih =>
    rw [List.all_cons, Bool.and_eq_true] at hbf
    exact ih (INoFree_step h hbf.1) hbf.2

/-- `INoFree` holds at the initial pool. -/
theorem INoFree_initPool (cap : Nat) : INoFree (initPool cap) := by
  refine ⟨?_, ?_⟩
  · intro c hc
    simp [initPool] at hc
  · intro hne c hc
    simp [initPool] at hc

/-- C4 (amended): `release()` invoked through a stale reference to slot
`i` is not generally harmless.  It unconditionally sets the slot's
`free` flag and synchronously emits the release notification; because
`free` is set to `true` before the emit, the handler's Busy guard
(`free === false && broken === false`) never suppresses a
release-triggered notification.  If the wait queue is empty, the whole
effect is that slot `i` is marked Free (a no-op when it already was
Free).  If the wait queue is non-empty, the head entry is removed and
fulfilled with slot `i` regardless of the slot's prior state, while any
task currently holding slot `i` keeps holding it — the stale release
puts a duplicate reference to the slot into circulation.  A stale
release is therefore harmless exactly when the wait queue is empty. -/
theorem C4_misuse_release_effect (s : PoolState) (i : Nat) (c : Slot)
    (hc : s.connections[i]? = some c) :
    (s.queue = [] →
      step s (.misuseRelease i) =
        { s with connections := s.connections.set i { c with free := true } })
    ∧ (∀ t ts, s.queue = t :: ts →
        step s (.misuseRelease i) =
          { s with
            connections := s.connections.set i { c with free := false }
            queue := ts
            tasks := s.tasks.set t (.fulfilled i)
            log := s.log ++ [.fulfill t i, .handout t i] }
        ∧ ∀ u, u ≠ t → s.tasks[u]? = some (.holding i) →
            (step s (.misuseRelease i)).tasks[u]? = some (.holding i)) := by
  have hget : ({ s with
      connections := s.connections.set i { c with free := true } } : PoolState).connections[i]? =
      some { c with free := true } :=
    List.getElem?_set_self (getElem?_some_lt hc)
  constructor
  · intro hq
    rw [step_misuseRelease hc, queueHandler_empty hget hq]
  · intro t ts hq
    have heq : step s (.misuseRelease i) =
        { s with
          connections := s.connections.set i { c with free := false }
          queue := ts
          tasks := s.tasks.set t (.fulfilled i)
          log := s.log ++ [.fulfill t i, .handout t i] } := by
      rw [step_misuseRelease hc, queueHandler_serve hget (by simp) hq]
      simp [List.set_set]
    refine ⟨heq, ?_⟩
    intro u hu hhold
    rw [heq]
    show (s.tasks.set t (TaskStatus.fulfilled i))[u]? = some (.holding i)
    rw [List.getElem?_set_ne (fun he => hu he.symm)]
    exact hhold

/-- Witness for the amended C4: a double release — slot 0 is released
once, re-acquired by task 1, then released again through the stale
reference while task 2 waits — serves task 2 the very slot task 1 still
holds. -/
theorem C4_misuse_release_effect_witness :
    (step (run (initPool 1)
        [Event.startAcquire, Event.finishInit 0 none, Event.release 0,
         Event.startAcquire, Event.startAcquire]) (Event.misuseRelease 0)).tasks[2]?
      = some (TaskStatus.fulfilled 0)
    ∧ (step (run (initPool 1)
        [Event.startAcquire, Event.finishInit 0 none, Event.release 0,
         Event.startAcquire, Event.startAcquire]) (Event.misuseRelease 0)).tasks[1]?
      = some (TaskStatus.holding 0) := by
  obtain ⟨heq, hpres⟩ :=
    (C4_misuse_release_effect (run (initPool 1)
        [Event.startAcquire, Event.finishInit 0 none, Event.release 0,
         Event.startAcquire, Event.startAcquire]) 0 ⟨false, false, 0, true⟩
      (by decide)).2 2 [] (by decide)
  refine ⟨?_, hpres 1 (by decide) (by decide)⟩
  rw [heq]
  decide

/-! ## Leaked-slot persistence (claim C9) -/

/-- A leaked slot is invisible to the notification handler: whatever slot
the handler is invoked for, the leaked slot stays leaked and is never
handed out. -/
theorem leaked_queueHandler {s : PoolState} {i j : Nat} (hL : leakedSlot s i) :
    leakedSlot (queueHandler s j) i
    ∧ ∀ u, Ev.handout u i ∈ (queueHandler s j).log → Ev.handout u i ∈ s.log := by
  obtain ⟨⟨ci, hci, hcf, hcb, hca⟩, hrefs⟩ := hL
  cases hc : s.connections[j]? with
  | none =>
    rw [queueHandler_none hc]
    exact ⟨⟨⟨ci, hci, hcf, hcb, hca⟩, hrefs⟩, fun u hm => hm⟩
  | some c =>
    by_cases hb : c.free = false ∧ c.broken = false
    · rw [queueHandler_busy hc hb.1 hb.2]
      exact ⟨⟨⟨ci, hci, hcf, hcb, hca⟩, hrefs⟩, fun u hm => hm⟩
    · cases hq : s.queue with
      | nil =>
        rw [queueHandler_empty hc hq]
        exact ⟨⟨⟨ci, hci, hcf, hcb, hca⟩, hrefs⟩, fun u hm => hm⟩
      | cons t' rest =>
        have hji : j ≠ i := by
          intro he
          subst he
          rw [hci] at hc
          cases hc
          exact hb ⟨hcf, hcb⟩
        rw [queueHandler_serve hc hb hq]
        refine ⟨⟨⟨ci, ?_, hcf, hcb, hca⟩, ?_⟩, ?_⟩
        · show (s.connections.set j { c with free := false })[i]? = some ci
          rw [List.getElem?_set_ne hji]
          exact hci
        · intro u
          show refL (s.tasks.set t' (.fulfilled j)) u i = false
          by_cases hut : u = t'
          · subst hut
            by_cases hlt : u < s.tasks.length
            · rw [refL_set_self _ hlt]
              simp only [TaskStatus.refs, beq_eq_false_iff_ne]
              exact hji
            · exact refL_of_le (by rw [List.length_set]; omega) i
          · rw [refL_set_ne _ (fun he => hut he.symm)]
            exact hrefs u
        · intro u hmem
          replace hmem : Ev.handout u i ∈ s.log ++ [Ev.fulfill t' j, Ev.handout t' j] := hmem
          rcases List.mem_append.mp hmem with hm | hm
          · exact hm
          · simp at hm
            exact ((hji hm.2.symm).elim)

/-- One step that is not a stale release of the leaked slot keeps a
leaked slot leaked and never hands it out. -/
theorem leaked_step {s : PoolState} {i : Nat} (hL : leakedSlot s i) {e : Event}
    (hne : e ≠ .misuseRelease i) :
    leakedSlot (step s e) i
    ∧ ∀ u, Ev.handout u i ∈ (step s e).log → Ev.handout u i ∈ s.log := by
  obtain ⟨⟨ci, hci, hcf, hcb, hca⟩, hrefs⟩ := hL
  have hLw : leakedSlot s i := ⟨⟨ci, hci, hcf, hcb, hca⟩, hrefs⟩
  have hilen : i < s.connections.length := getElem?_some_lt hci
  refine @step_rec
    (fun s' => leakedSlot s' i ∧ ∀ u, Ev.handout u i ∈ s'.log → Ev.handout u i ∈ s.log)
    s e ⟨hLw, fun u hm => hm⟩ ?_ ?_ ?_ ?_ ?_ ?_ ?_ ?_ ?_ ?_ ?_ ?_
  · intro j c hfind hc hbno
    have hji : j ≠ i := by
      intro he
      subst he
      rw [hci] at hc
      cases hc
      obtain ⟨a, ha, hpa⟩ := findIdx?_some hfind
      rw [hci] at ha
      cases ha
      rw [hcf, hcb] at hpa
      exact Bool.noConfusion hpa
    refine ⟨⟨⟨ci, ?_, hcf, hcb, hca⟩, ?_⟩, ?_⟩
    · show (s.connections.set j { c with free := false })[i]? = some ci
      rw [List.getElem?_set_ne hji]
      exact hci
    · intro u
      show refL (s.tasks ++ [TaskStatus.holding j]) u i = false
      by_cases hu : u < s.tasks.length
      · rw [refL_append_lt hu]
        exact hrefs u
      · by_cases hu2 : u = s.tasks.length
        · subst hu2
          rw [refL_concat_self]
          simp only [TaskStatus.refs, beq_eq_false_iff_ne]
          exact hji
        · exact refL_of_le (by rw [List.length_append, List.length_singleton]; omega) i
    · intro u hmem
      replace hmem : Ev.handout u i ∈ s.log ++ [Ev.handout s.tasks.length j] := hmem
      rcases List.mem_append.mp hmem with hm | hm
      · exact hm
      · simp at hm
        exact ((hji hm.2.symm).elim)
  · intro j c hfind hc hb
    have hji : j ≠ i := by
      intro he
      subst he
      rw [hci] at hc
      cases hc
      rw [hcb] at hb
      exact Bool.noConfusion hb
    refine ⟨⟨⟨ci, ?_, hcf, hcb, hca⟩, ?_⟩, fun u hm => hm⟩
    · show (s.connections.set j { c with free := false, broken := false })[i]? = some ci
      rw [List.getElem?_set_ne hji]
      exact hci
    · intro u
      show refL (s.tasks ++ [TaskStatus.repairing j]) u i = false
      by_cases hu : u < s.tasks.length
      · rw [refL_append_lt hu]
        exact hrefs u
      · by_cases hu2 : u = s.tasks.length
        · subst hu2
          rw [refL_concat_self]
          simp only [TaskStatus.refs, beq_eq_false_iff_ne]
          exact hji
        · exact refL_of_le (by rw [List.length_append, List.length_singleton]; omega) i
  · intro hfind hcap
    refine ⟨⟨⟨ci, ?_, hcf, hcb, hca⟩, ?_⟩, fun u hm => hm⟩
    · show (s.connections ++ [_])[i]? = some ci
      rw [List.getElem?_append_left hilen]
      exact hci
    · intro u
      show refL (s.tasks ++ [TaskStatus.initNew s.connections.length]) u i = false
      by_cases hu : u < s.tasks.length
      · rw [refL_append_lt hu]
        exact hrefs u
      · by_cases hu2 : u = s.tasks.length
        · subst hu2
          rw [refL_concat_self]
          simp only [TaskStatus.refs, beq_eq_false_iff_ne]
          omega
        · exact refL_of_le (by rw [List.length_append, List.length_singleton]; omega) i
  · intro hfind hcap
    refine ⟨⟨⟨ci, hci, hcf, hcb, hca⟩, ?_⟩, ?_⟩
    · intro u
      show refL (s.tasks ++ [TaskStatus.waiting]) u i = false
      by_cases hu : u < s.tasks.length
      · rw [refL_append_lt hu]
        exact hrefs u
      · by_cases hu2 : u = s.tasks.length
        · subst hu2
          rw [refL_concat_self]
          simp [TaskStatus.refs]
        · exact refL_of_le (by rw [List.length_append, List.length_singleton]; omega) i
    · intro u hmem
      replace hmem : Ev.handout u i ∈ s.log ++ [Ev.enq s.tasks.length] := hmem
      rcases List.mem_append.mp hmem with hm | hm
      · exact hm
      · simp at hm
  · intro t j c hor hc
    have htlen : t < s.tasks.length := by
      rcases hor with ht | ht <;> exact getElem?_some_lt ht
    have hji : j ≠ i := by
      intro he
      subst he
      have hr := hrefs t
      rcases hor with ht | ht <;>
        · rw [refAt, refL_eq_of_getElem ht] at hr
          simp [TaskStatus.refs] at hr
    refine ⟨⟨⟨ci, ?_, hcf, hcb, hca⟩, ?_⟩, ?_⟩
    · show (s.connections.set j { c with connAlive := true })[i]? = some ci
      rw [List.getElem?_set_ne hji]
      exact hci
    · intro u
      show refL (s.tasks.set t (TaskStatus.holding j)) u i = false
      by_cases hut : u = t
      · subst hut
        rw [refL_set_self _ htlen]
        simp only [TaskStatus.refs, beq_eq_false_iff_ne]
        exact hji
      · rw [refL_set_ne _ (fun he => hut he.symm)]
        exact hrefs u
    · intro u hmem
      replace hmem : Ev.handout u i ∈ s.log ++ [Ev.handout t j] := hmem
      rcases List.mem_append.mp hmem with hm | hm
      · exact hm
      · simp at hm
        exact ((hji hm.2.symm).elim)
  · intro t j c e' hor hc heqor
    have htlen : t < s.tasks.length := by
      rcases hor with ht | ht <;> exact getElem?_some_lt ht
    have hji : j ≠ i := by
      intro he
      subst he
      have hr := hrefs t
      rcases hor with ht | ht <;>
        · rw [refAt, refL_eq_of_getElem ht] at hr
          simp [TaskStatus.refs] at hr
    have hpre : leakedSlot { s with
        connections := s.connections.set j { c with connAlive := false }
        tasks := s.tasks.set t (.failed e') } i := by
      refine ⟨⟨ci, ?_, hcf, hcb, hca⟩, ?_⟩
      · show (s.connections.set j { c with connAlive := false })[i]? = some ci
        rw [List.getElem?_set_ne hji]
        exact hci
      · intro u
        show refL (s.tasks.set t (TaskStatus.failed e')) u i = false
        by_cases hut : u = t
        · subst hut
          rw [refL_set_self _ htlen]
          simp [TaskStatus.refs]
        · rw [refL_set_ne _ (fun he => hut he.symm)]
          exact hrefs u
    by_cases hce : isConnectionError e' = true
    · have hget : ({ s with
          connections := s.connections.set j { c with connAlive := false }
          tasks := s.tasks.set t (.failed e') } : PoolState).connections[j]? =
          some { c with connAlive := false } :=
        List.getElem?_set_self (getElem?_some_lt hc)
      rw [handleExecuteError_conn hce hget]
      have hpre2 : leakedSlot { ({ s with
          connections := s.connections.set j { c with connAlive := false }
          tasks := s.tasks.set t (.failed e') } : PoolState) with
          connections := ({ s with
            connections := s.connections.set j { c with connAlive := false }
            tasks := s.tasks.set t (.failed e') } : PoolState).connections.set j
            { ({ c with connAlive := false } : Slot) with broken := true } } i := by
        obtain ⟨⟨ci2, hci2, h1, h2, h3⟩, hrefs2⟩ := hpre
        refine ⟨⟨ci2, ?_, h1, h2, h3⟩, hrefs2⟩
        show ((s.connections.set j { c with connAlive := false }).set j _)[i]? = some ci2
        rw [List.getElem?_set_ne hji]
        exact hci2
      obtain ⟨hLq, hlogq⟩ := leaked_queueHandler hpre2
      refine ⟨hLq, fun u hm => hlogq u hm⟩
    · have hce' : isConnectionError e' = false := by
        cases hval : isConnectionError e'
        · rfl
        · exact absurd hval hce
      rw [handleExecuteError_other hce']
      exact ⟨hpre, fun u hm => hm⟩
  · intro t j c ht hc hb
    have htlen : t < s.tasks.length := getElem?_some_lt ht
    have hji : j ≠ i := by
      intro he
      subst he
      have hr := hrefs t
      rw [refAt, refL_eq_of_getElem ht] at hr
      simp [TaskStatus.refs] at hr
    refine ⟨⟨⟨ci, ?_, hcf, hcb, hca⟩, ?_⟩, fun u hm => hm⟩
    · show (s.connections.set j { c with free := false })[i]? = some ci
      rw [List.getElem?_set_ne hji]
      exact hci
    · intro u
      show refL (s.tasks.set t (TaskStatus.holding j)) u i = false
      by_cases hut : u = t
      · subst hut
        rw [refL_set_self _ htlen]
        simp only [TaskStatus.refs, beq_eq_false_iff_ne]
        exact hji
      · rw [refL_set_ne _ (fun he => hut he.symm)]
        exact hrefs u
  · intro t j c ht hc hb
    have htlen : t < s.tasks.length := getElem?_some_lt ht
    have hji : j ≠ i := by
      intro he
      subst he
      have hr := hrefs t
      rw [refAt, refL_eq_of_getElem ht] at hr
      simp [TaskStatus.refs] at hr
    refine ⟨⟨⟨ci, ?_, hcf, hcb, hca⟩, ?_⟩, fun u hm => hm⟩
    · show (s.connections.set j { c with free := false, broken := false })[i]? = some ci
      rw [List.getElem?_set_ne hji]
      exact hci
    · intro u
      show refL (s.tasks.set t (TaskStatus.repairing j)) u i = false
      by_cases hut : u = t
      · subst hut
        rw [refL_set_self _ htlen]
        simp only [TaskStatus.refs, beq_eq_false_iff_ne]
        exact hji
      · rw [refL_set_ne _ (fun he => hut he.symm)]
        exact hrefs u
  · intro t j c ht hc
    have htlen : t < s.tasks.length := getElem?_some_lt ht
    have hji : j ≠ i := by
      intro he
      subst he
      have hr := hrefs t
      rw [refAt, refL_eq_of_getElem ht] at hr
      simp [TaskStatus.refs] at hr
    have hpre : leakedSlot { s with
        connections := s.connections.set j { c with free := true }
        tasks := s.tasks.set t .released
        log := s.log ++ [.rel t j] } i := by
      refine ⟨⟨ci, ?_, hcf, hcb, hca⟩, ?_⟩
      · show (s.connections.set j { c with free := true })[i]? = some ci
        rw [List.getElem?_set_ne hji]
        exact hci
      · intro u
        show refL (s.tasks.set t TaskStatus.released) u i = false
        by_cases hut : u = t
        · subst hut
          rw [refL_set_self _ htlen]
          simp [TaskStatus.refs]
        · rw [refL_set_ne _ (fun he => hut he.symm)]
          exact hrefs u
    obtain ⟨hLq, hlogq⟩ := leaked_queueHandler hpre
    refine ⟨hLq, fun u hm => ?_⟩
    have hm2 := hlogq u hm
    replace hm2 : Ev.handout u i ∈ s.log ++ [Ev.rel t j] := hm2
    rcases List.mem_append.mp hm2 with hm3 | hm3
    · exact hm3
    · simp at hm3
  · intro j c hc heq
    have hji : j ≠ i := by
      intro he
      exact hne (by rw [heq, he])
    have hpre : leakedSlot { s with
        connections := s.connections.set j { c with free := true } } i := by
      refine ⟨⟨ci, ?_, hcf, hcb, hca⟩, hrefs⟩
      show (s.connections.set j { c with free := true })[i]? = some ci
      rw [List.getElem?_set_ne hji]
      exact hci
    obtain ⟨hLq, hlogq⟩ := leaked_queueHandler hpre
    exact ⟨hLq, fun u hm => hlogq u hm⟩
  · intro j c hc halive heq
    have hji : j ≠ i := by
      intro he
      subst he
      rw [hci] at hc
      cases hc
      rw [hca] at halive
      exact Bool.noConfusion halive
    have hpre : leakedSlot { s with
        connections := s.connections.set j { c with broken := true, connAlive := false }
        log := s.log ++ [.lost j] } i := by
      refine ⟨⟨ci, ?_, hcf, hcb, hca⟩, hrefs⟩
      show (s.connections.set j { c with broken := true, connAlive := false })[i]? = some ci
      rw [List.getElem?_set_ne hji]
      exact hci
    obtain ⟨hLq, hlogq⟩ := leaked_queueHandler hpre
    refine ⟨hLq, fun u hm => ?_⟩
    have hm2 := hlogq u hm
    replace hm2 : Ev.handout u i ∈ s.log ++ [Ev.lost j] := hm2
    rcases List.mem_append.mp hm2 with hm3 | hm3
    · exact hm3
    · simp at hm3
  · refine ⟨⟨⟨ci, hci, hcf, hcb, hca⟩, ?_⟩, ?_⟩
    · intro u
      show refL (s.queue.foldl
          (fun ts u => ts.set u (TaskStatus.failed teardownError)) s.tasks) u i = false
      by_cases hm : u ∈ s.queue
      · by_cases hlt : u < s.tasks.length
        · unfold refL
          rw [foldlSet_mem hm hlt]
          simp [TaskStatus.refs]
        · exact refL_of_le (by rw [foldlSet_length]; omega) i
      · unfold refL
        rw [foldlSet_not_mem hm]
        exact hrefs u
    · intro u hmem
      replace hmem : Ev.handout u i ∈ s.log ++ s.queue.map Ev.reject := hmem
      rcases List.mem_append.mp hmem with hm | hm
      · exact hm
      · simp [List.mem_map] at hm

/-- A leaked slot stays leaked along any run that never invokes a stale
release on it, and is never handed out. -/
theorem leaked_run {s : PoolState} {i : Nat} (hL : leakedSlot s i)
    {es : List Event} (hes : Event.misuseRelease i ∉ es) :
    leakedSlot (run s es) i
    ∧ ∀ u, Ev.handout u i ∈ (run s es).log → Ev.handout u i ∈ s.log := by
  induction es generalizing s with
  | nil => exact ⟨hL, fun u hm => hm⟩
  | cons e es ih =>
    rw [List.mem_cons, not_or] at hes
    obtain ⟨hne1, hne2⟩ := hes
    obtain ⟨hL1, hlog1⟩ := leaked_step hL (fun he => hne1 he.symm)
    obtain ⟨hL2, hlog2⟩ := ih hL1 hne2
    exact ⟨hL2, fun u hm => hlog1 u (hlog2 u hm)⟩

/-! ## Claim C9 — permanent capacity loss -/

/-- C9: if a newly created slot's initialization fails with an error that
is not a `ConnectionError`, the rejection reaches the requesting caller,
the `size` counter stays incremented, nothing is appended to the history,
and the slot is leaked: it sits in the pool with `free = false`,
`broken = false` and no live link, referenced by no task, and along every
continuation (without a stale release aimed at it) it stays that way and
is never handed out to any caller. -/
theorem C9_capacity_leak (s : PoolState) (t i : Nat) (c : Slot) (k : Err)
    (ht : s.tasks[t]? = some (.initNew i))
    (hc : s.connections[i]? = some c)
    (hcf : c.free = false) (hcb : c.broken = false)
    (hnoref : ∀ u, u ≠ t → refAt s u i = false)
    (hk : isConnectionError k = false)
    (es : List Event) (hes : Event.misuseRelease i ∉ es) :
    (step s (.finishInit t (some k))).tasks[t]? = some (.failed k)
    ∧ (step s (.finishInit t (some k))).size = s.size
    ∧ (step s (.finishInit t (some k))).log = s.log
    ∧ leakedSlot (step s (.finishInit t (some k))) i
    ∧ leakedSlot (run (step s (.finishInit t (some k))) es) i
    ∧ (∀ u, Ev.handout u i ∈ (run (step s (.finishInit t (some k))) es).log →
        Ev.handout u i ∈ s.log)
    ∧ s.size ≤ (run (step s (.finishInit t (some k))) es).size := by
  have htlen := getElem?_some_lt ht
  rw [step_finishInit_err ht hc, handleExecuteError_other hk]
  have hs1 : leakedSlot ({ s with
      connections := s.connections.set i { c with connAlive := false }
      tasks := s.tasks.set t (.failed k) } : PoolState) i := by
    refine ⟨⟨{ c with connAlive := false },
      List.getElem?_set_self (getElem?_some_lt hc), hcf, hcb, rfl⟩, ?_⟩
    intro u
    by_cases hut : u = t
    · subst hut
      show refL (s.tasks.set u (TaskStatus.failed k)) u i = false
      rw [refL_set_self _ htlen]
      simp [TaskStatus.refs]
    · show refL (s.tasks.set t (TaskStatus.failed k)) u i = false
      rw [refL_set_ne _ (fun he => hut he.symm)]
      exact hnoref u hut
  obtain ⟨hL2, hlog2⟩ := leaked_run hs1 hes
  refine ⟨List.getElem?_set_self htlen, rfl, rfl, hs1, hL2, ?_, ?_⟩
  · intro u hm
    exact hlog2 u hm
  · exact run_size_mono ({ s with
      connections := s.connections.set i { c with connAlive := false }
      tasks := s.tasks.set t (.failed k) } : PoolState) es

/-- Witness for C9: in a capacity-2 pool, task 1's fresh slot 1 fails to
initialize with `ConnectError`; after a release, two more acquires and a
teardown, slot 1 is still leaked and was never handed out. -/
theorem C9_capacity_leak_witness :
    (step (run (initPool 2) (traceC9.take 3)) (.finishInit 1 (some .connectError))).tasks[1]?
      = some (TaskStatus.failed .connectError)
    ∧ leakedSlot
        (run (step (run (initPool 2) (traceC9.take 3)) (.finishInit 1 (some .connectError)))
          traceC9suffix) 1 := by
  have happ := C9_capacity_leak (run (initPool 2) (traceC9.take 3)) 1 1
    ⟨false, false, 1, false⟩ .connectError (by decide) (by decide) rfl rfl
    (fun u hu => by
      match u with
      | 0 => decide
      | 1 => exact absurd rfl hu
      | n + 2 =>
        refine refL_of_le ?_ 1
        have hlen : (run (initPool 2) (traceC9.take 3)).tasks.length = 2 := by decide
        rw [hlen]
        omega)
    (by decide) traceC9suffix (by decide)
  exact ⟨happ.1, happ.2.2.2.2.1⟩
